import Mathlib

/-!
# CourtFirst: verification of the data-pipeline scripts

Shallow embedding of the CourtFirst repository scripts
(tools/util.py, tools/enrich_urls.py, tools/enrich_firstN.py,
tools/clean_cases.py, tools/extract_cases_from_lines.py,
tools/rebuild_cases_from_ltj_lines.py, tools/extract_cases.py,
tools/build_candidates.py, data/tools/scrape_cases_to_breaches.py)
together with theorems settling the frozen claims about them.

Modelling conventions:

* Library behaviour that cannot be reproduced exactly in a pure embedding
  (the `requests` HTTP stack, BeautifulSoup HTML parsing, the `re` regex
  engine where only control flow depends on it, `html.unescape`, Unicode
  case mapping) is abstracted into explicit "world" parameter structures,
  and every theorem quantifies over all worlds, so it holds in particular
  for the behaviour of the real libraries.  Control flow, string logic and
  data routing of the repository code itself are embedded concretely.
* Python exceptions are modelled with `Except`; `sys.exit` and uncaught
  exceptions are both fatal outcomes (`Fatal`).
* CSV rows / dicts are modelled as ordered association lists
  `List (String × String)`, mirroring insertion order of Python dicts.
* Machine floats appear only in `title_similarity`; its value is modelled
  exactly in `ℚ` (the numerator and denominator are small naturals).
* `time.sleep` calls are modelled as events in an explicit trace where a
  claim is about rate limiting, and ignored in value-level embeddings.
-/

namespace CourtFirst

/-! ## Python string primitives -/

/-- Whitespace as recognised by Python `str.strip()` / `re` `\s`
(ASCII whitespace plus the common Unicode space characters). -/
def pyIsSpace (c : Char) : Bool :=
  c = ' ' ∨ c = '\t' ∨ c = '\n' ∨ c = '\r' ∨ c = '\x0b' ∨ c = '\x0c' ∨
  c = '\x85' ∨ c = '\xa0' ∨ c = ' ' ∨ (' ' ≤ c ∧ c ≤ ' ') ∨
  c = ' ' ∨ c = ' ' ∨ c = ' ' ∨ c = ' ' ∨ c = '　'

/-- Python `str.strip()` on a character list. -/
def stripList (l : List Char) : List Char :=
  ((l.dropWhile pyIsSpace).reverse.dropWhile pyIsSpace).reverse

/-- Python `str.strip()` (no argument: strip whitespace). -/
def pyStrip (s : String) : String := ⟨stripList s.data⟩

/-- Python `str.strip(chars)`: strip any of the given characters. -/
def pyStripChars (cs : List Char) (s : String) : String :=
  ⟨((s.data.dropWhile (cs.contains ·)).reverse.dropWhile (cs.contains ·)).reverse⟩

/-- Python `str.rstrip(chars)`. -/
def pyRStripChars (cs : List Char) (s : String) : String :=
  ⟨(s.data.reverse.dropWhile (cs.contains ·)).reverse⟩

/-- Collapse runs of whitespace into a single space: the `Bool` records
whether the previous character belonged to a whitespace run. -/
def collapseWsAux : Bool → List Char → List Char
  | _, [] => []
  | prevSpace, c :: t =>
    if pyIsSpace c then
      if prevSpace then collapseWsAux true t else ' ' :: collapseWsAux true t
    else c :: collapseWsAux false t

/-- Python `re.sub(r"\s+", " ", s)`: every maximal whitespace run becomes one
space. -/
def collapseWs (s : String) : String := ⟨collapseWsAux false s.data⟩

/-- Python `str.split()` with no argument: split on whitespace runs,
dropping empty pieces (`cur` accumulates the current word reversed). -/
def pySplitWsAux : List Char → List Char → List (List Char)
  | cur, [] => if cur.isEmpty then [] else [cur.reverse]
  | cur, c :: t =>
    if pyIsSpace c then
      if cur.isEmpty then pySplitWsAux [] t else cur.reverse :: pySplitWsAux [] t
    else pySplitWsAux (c :: cur) t

/-- Python `str.split()` returning strings. -/
def pySplitWs (s : String) : List String := (pySplitWsAux [] s.data).map (⟨·⟩)

/-- Lowercasing as used by the scripts.  The embedded strings that matter to
the theorems are ASCII; Python `str.lower()` additionally lowercases
non-ASCII letters, which no claim depends on. -/
def pyLower (s : String) : String := ⟨s.data.map Char.toLower⟩

/-- Python `re.search(r"[A-Za-z]", s)` is a match: the string has an ASCII letter. -/
def hasAlpha (s : String) : Bool := s.data.any Char.isAlpha

/-- Python substring test `a in b`. -/
def strContains (b a : String) : Bool :=
  List.range (b.data.length + 1) |>.any (fun i => (b.data.drop i).take a.data.length = a.data)

/-- Python `s.startswith(pre)`. -/
def pyStartsWith (s pre : String) : Bool :=
  s.data.take pre.data.length = pre.data

/-- Replace all non-overlapping occurrences of `pat` left to right (fuel
bounds the scan; each step consumes at least one character). -/
def replAux (pat sub : List Char) : Nat → List Char → List Char
  | 0, l => l
  | _, [] => []
  | fuel + 1, c :: t =>
    if (c :: t).take pat.length = pat then
      sub ++ replAux pat sub fuel ((c :: t).drop pat.length)
    else c :: replAux pat sub fuel t

/-- Python `s.replace(pat, sub)` for a non-empty pattern (every use in the
embedded code has a non-empty literal pattern). -/
def pyReplace (s pat sub : String) : String :=
  if pat.data.isEmpty then s
  else ⟨replAux pat.data sub.data (s.data.length + 1) s.data⟩

/-- Python truthiness of an optional string (`None` and the empty string
are falsy). -/
def truthyOpt : Option String → Bool
  | none => false
  | some s => s ≠ ""

/-- Python `a or b` where `a` is an optional string and `b` a string. -/
def pyOrStr (a : Option String) (b : String) : String :=
  match a with
  | none => b
  | some s => if s = "" then b else s

/-- Dict access `d.get(k)` on an ordered association list. -/
def getOpt (row : List (String × String)) (k : String) : Option String :=
  (row.find? (fun p => p.1 = k)).map (·.2)

/-- Dict access `d.get(k, "")`. -/
def getD (row : List (String × String)) (k : String) : String :=
  (getOpt row k).getD ""

/-- Dict assignment `d[k] = v` where the key may be present or absent:
updates in place if present (preserving insertion order), appends otherwise. -/
def setKey (row : List (String × String)) (k v : String) : List (String × String) :=
  if (row.find? (fun p => p.1 = k)).isSome then
    row.map (fun p => if p.1 = k then (p.1, v) else p)
  else row ++ [(k, v)]

/-! ## Fatal outcomes

`sys.exit(n)` and `sys.exit(message)` (status 1) as well as uncaught
exceptions terminate a script with a non-zero status. -/

inductive Fatal where
  | exit (code : Nat)
  | exc
  deriving DecidableEq, Repr

/-! ## tools/util.py

The HTTP stack (`requests.get` inside `http_get`), `urllib.parse.urlencode`,
BeautifulSoup anchor selection and the regex searches applied to fetched
pages are abstracted into `UWorld`.  `http_get` raising `FetchError` (both
for status >= 400 and for `requests.RequestException`) is the `.error` case
of `httpGet`.  The error payload is `Unit` since only `FetchError` can
escape these helpers. -/

structure UWorld where
  /-- Python `http_get url params`: page text, or a raised `FetchError`. -/
  httpGet : String → List (String × String) → Except Unit String
  /-- Python `urllib.parse.urlencode`. -/
  urlencode : List (String × String) → String
  /-- Python `soup.select(selector)`: the `href` attributes of the selected anchors
  in document order (`""` when the anchor has no href, as `a.get("href","")`
  yields). -/
  selAnchors : String → String → List String
  /-- Python `soup.find("a", href=re.compile(r"\.pdf$", re.I))`: the href of the
  first anchor whose href ends in `.pdf`, when that anchor has a truthy
  href. -/
  findPdfHref : String → Option String
  /-- Python `soup.find("a", string=re.compile(r"View\s+PDF", re.I))`: the href of
  the first "View PDF" anchor, when present with a truthy href. -/
  findViewPdfHref : String → Option String
  /-- Python `plausible_match page title citation` (BeautifulSoup text extraction
  plus `norm_title`). -/
  plausOk : String → String → String → Bool
  /-- Python `parse_qs(urlparse(href).query).get("uddg",[None])[0]`; `none` covers
  both a missing `uddg` parameter and a raised exception (the code treats
  them alike). -/
  parseUddg : String → Option String
  /-- Python `re.search(r"/\w\w/.*/\d{4}/\d+\.html?$", href)` is a match. -/
  bailiiCaseHref : String → Bool

/-- Python `jlib_search_url`. -/
def jlibSearchUrl (w : UWorld) (title citation : String) : String :=
  "https://www.jerseylaw.je/judgments/?" ++
    w.urlencode [("k", pyStrip (title ++ " " ++ citation))]

/-- Prefix a JerseyLaw-relative href with the site root. -/
def jlibAbs (href : String) : String :=
  if pyStartsWith href "/" then "https://www.jerseylaw.je" ++ href else href

/-- Python `jlib_pick_direct_from_results`: first anchor of the results page whose
href is truthy and contains `/judgments/`. -/
def jlibPickDirect (w : UWorld) (htmlTxt : String) : Option String :=
  (w.selAnchors htmlTxt "a[href*=/judgments/]").findSome? (fun href =>
    if href ≠ "" ∧ strContains href "/judgments/" then some (jlibAbs href) else none)

/-- Python `jlib_extract_pdf`: the View PDF button href, else the first `.pdf`
anchor href, made absolute. -/
def jlibExtractPdf (w : UWorld) (htmlTxt : String) : Option String :=
  match w.findViewPdfHref htmlTxt with
  | some href => some (jlibAbs href)
  | none =>
    match w.findPdfHref htmlTxt with
    | some href => some (jlibAbs href)
    | none => none

/-- Python `jlib_find`: search, follow the first judgment link, check plausibility,
prefer the PDF link.  `FetchError` from either fetch propagates. -/
def jlibFind (w : UWorld) (title citation : String) : Except Unit (Option String) := do
  let htmlRes ← w.httpGet (jlibSearchUrl w title citation) []
  match jlibPickDirect w htmlRes with
  | none => pure none
  | some direct => do
    let page ← w.httpGet direct []
    if ¬ w.plausOk page title citation then
      pure none
    else
      pure (some (pyOrStr (jlibExtractPdf w page) direct))

/-- Python `bailii_search_url` (the citation argument is unused by the source). -/
def bailiiSearchUrl (w : UWorld) (title : String) : String :=
  "https://www.bailii.org/cgi-bin/sino_search_1.cgi?" ++
    w.urlencode [("query", pyStrip title)]

/-- Prefix a BAILII-relative href with the site root. -/
def bailiiAbs (href : String) : String :=
  if pyStartsWith href "/" then "https://www.bailii.org" ++ href else href

/-- Python `bailii_pick_direct_from_results`: first anchor whose absolutised href
looks like a case page. -/
def bailiiPickDirect (w : UWorld) (htmlTxt : String) : Option String :=
  (w.selAnchors htmlTxt "a[href]").findSome? (fun href =>
    if href = "" then none
    else
      let h := bailiiAbs href
      if w.bailiiCaseHref h then some h else none)

/-- Python `bailii_extract_pdf`. -/
def bailiiExtractPdf (w : UWorld) (htmlTxt : String) : Option String :=
  (w.findPdfHref htmlTxt).map bailiiAbs

/-- Python `bailii_find`. -/
def bailiiFind (w : UWorld) (title citation : String) : Except Unit (Option String) := do
  let htmlRes ← w.httpGet (bailiiSearchUrl w title) []
  match bailiiPickDirect w htmlRes with
  | none => pure none
  | some direct => do
    let page ← w.httpGet direct []
    if ¬ w.plausOk page title citation then
      pure none
    else
      pure (some (pyOrStr (bailiiExtractPdf w page) direct))

/-- Python `ddg_first`: fetch the DuckDuckGo HTML endpoint and return the first
result href (after stripping the DDG redirect), `none` when there are no
result anchors.  The fetch can raise `FetchError`, which propagates. -/
def ddgFirst (w : UWorld) (query : String) : Except Unit (Option String) := do
  let htmlTxt ← w.httpGet "https://duckduckgo.com/html/"
      [("q", query), ("t", "h_"), ("ia", "web")]
  match (w.selAnchors htmlTxt "a.result__a").head? with
  | none => pure none
  | some href =>
    if pyStartsWith href "/l/?kh=" ∧ strContains href "uddg=" then
      pure (some ((w.parseUddg href).getD href))
    else
      pure (some href)

/-- The query string `f"{title} {citation} {site}"` used in the DDG
fallback of `pick_best_url`. -/
def ddgSiteQuery (title citation site : String) : String :=
  title ++ " " ++ citation ++ " " ++ site

/-- The two site filters tried by the DDG fallback, in order. -/
def ddgSites : List String := ["site:jerseylaw.je/judgments", "site:bailii.org"]

/-- The DDG fallback loop of `pick_best_url`: for each site filter, take the
first DDG hit; fetch it (a `FetchError` here moves on to the next site),
keep it if plausible, upgrading to a PDF link for known domains.  A
`FetchError` raised by `ddg_first` itself is NOT caught and propagates. -/
def ddgLoop (w : UWorld) (title citation : String) : List String → Except Unit (Option String)
  | [] => pure none
  | site :: rest => do
    let hit ← ddgFirst w (ddgSiteQuery title citation site)
    match hit with
    | none => ddgLoop w title citation rest
    | some h =>
      if h = "" then ddgLoop w title citation rest
      else
        match w.httpGet h [] with
        | .error _ => ddgLoop w title citation rest
        | .ok page =>
          if w.plausOk page title citation then
            if strContains h "jerseylaw.je" then
              pure (some (pyOrStr (jlibExtractPdf w page) h))
            else if strContains h "bailii.org" then
              pure (some (pyOrStr (bailiiExtractPdf w page) h))
            else
              pure (some h)
          else ddgLoop w title citation rest

/-- The `try ... except FetchError: pass` wrapper around the first two
stages of `pick_best_url`: a raised `FetchError` and a falsy result both
yield nothing. -/
def stageCaught (r : Except Unit (Option String)) : Option String :=
  match r with
  | .error _ => none
  | .ok none => none
  | .ok (some u) => if u = "" then none else some u

/-- Python `pick_best_url`: JerseyLaw search, then BAILII search (both with their
`FetchError` caught), then the DDG site-filtered fallback.  The
`sleep_jitter` calls between stages only delay and are omitted at value
level. -/
def pickBestUrl (w : UWorld) (title citation : String) : Except Unit (Option String) :=
  match stageCaught (jlibFind w title citation) with
  | some u => pure (some u)
  | none =>
    match stageCaught (bailiiFind w title citation) with
    | some u => pure (some u)
    | none => ddgLoop w title citation ddgSites

/-! ## tools/enrich_firstN.py

A CSV row is an ordered association list.  `pick_best_url` is the embedded
function above; a `FetchError` escaping it (see `pickBestUrl`) crashes the
script, modelled as the fatal `.exc` outcome.  The `sleep_jitter` call and
the heartbeat prints are value-irrelevant and omitted here. -/

abbrev Row := List (String × String)

/-- Python `range(s, e)` over integers. -/
def pyRange (s e : Int) : List Int :=
  (List.range (e - s).toNat).map (fun k : Nat => s + Int.ofNat k)

/-- Python list indexing `xs[i]`: negative indices count from the end,
out-of-range indices raise `IndexError` (`none`). -/
def pyIdx {α : Type} (xs : List α) (i : Int) : Option Nat :=
  if 0 ≤ i then
    (if i < (xs.length : Int) then some i.toNat else none)
  else
    (if 0 ≤ (xs.length : Int) + i then some ((xs.length : Int) + i).toNat else none)

/-- Python `if "url" not in r: r["url"] = ""` (key membership, applied at write
time to every row). -/
def ensureUrl (r : Row) : Row :=
  if (r.find? (fun p => p.1 = "url")).isSome then r else r ++ [("url", "")]

/-- The per-index loop of `enrich_firstN.main`: fetch a URL for rows with a
non-empty Title, under Python list-index semantics (negative `--start`
values reach this loop unchecked). -/
def enrichFirstNLoop (w : UWorld) : List Int → List Row → Except Fatal (List Row)
  | [], rows => .ok rows
  | i :: is, rows =>
    match pyIdx rows i with
    | none => .error .exc
    | some j =>
      let r := rows.getD j []
      let title := pyStrip (getD r "Title")
      let citation := pyStrip (getD r "Citation")
      if title = "" then enrichFirstNLoop w is rows
      else
        match pickBestUrl w title citation with
        | .error _ => .error .exc
        | .ok none => enrichFirstNLoop w is rows
        | .ok (some url) =>
          if url = "" then enrichFirstNLoop w is rows
          else enrichFirstNLoop w is (rows.set j (setKey r "url" url))

/-- Python `enrich_firstN.main`: `end = min(len(rows), start + limit)`, loop over
`range(start, end)`, then write every row back with the url column
ensured. -/
def enrichFirstNMain (w : UWorld) (rows : List Row) (start limit : Int) :
    Except Fatal (List Row) :=
  let e : Int := min (rows.length : Int) (start + limit)
  match enrichFirstNLoop w (pyRange start e) rows with
  | .error f => .error f
  | .ok rows2 => .ok (rows2.map ensureUrl)

/-! ## tools/enrich_urls.py

`requests` (in `ddg_query` and `fetch`) and the BeautifulSoup-based
`verify_candidate` are abstracted into `EWorld`; `norm` and
`title_similarity` are embedded concretely (parameterised only by
`html.unescape`).  Network requests and politeness sleeps are recorded in an
explicit event trace. -/

inductive Ev where
  | req (url : String)
  | slp
  deriving DecidableEq, Repr

structure EWorld where
  /-- Python `ddg_query q`: the result hrefs, or a raised exception
  (`requests` errors and `raise_for_status`). -/
  ddg : String → Except Unit (List String)
  /-- Python `fetch url`: page text, or `None` (non-200, non-HTML or exception). -/
  fetchPage : String → Option String
  /-- Python `verify_candidate title cite html`. -/
  verify : String → String → String → Bool

/-- Python `norm`: unescape, normalise `v`/`vs`, drop curly quotes, map
punctuation to spaces, lowercase, collapse whitespace, strip.
`html.unescape` is the parameter `unescape`. -/
def normE (unescape : String → String) (s : String) : String :=
  let s1 := unescape s
  let s2 := pyReplace (pyReplace s1 " vs " " v ") " v. " " v "
  let quoteChars : List Char := ['‘', '’', '“', '”']
  let s3 : String := ⟨s2.data.filter (fun c => ¬ quoteChars.contains c)⟩
  let punct : List Char :=
    ['.', ',', ';', ':', '“', '”', '\"', Char.ofNat 39,
     '(', ')', '[', ']', Char.ofNat 123, Char.ofNat 125]
  let s4 : String := ⟨s3.data.map (fun c => if punct.contains c then ' ' else c)⟩
  pyStrip (collapseWs (pyLower s4))

/-- Python `title_similarity`: token-set Jaccard similarity of the normalised
strings, with float division modelled exactly in `ℚ`. -/
def titleSimilarity (unescape : String → String) (a b : String) : ℚ :=
  let ta := (pySplitWs (normE unescape a)).toFinset
  let tb := (pySplitWs (normE unescape b)).toFinset
  if ta = ∅ ∨ tb = ∅ then 0
  else
    let inter := (ta ∩ tb).card
    let denom := (ta ∪ tb).card
    if denom ≠ 0 then (inter : ℚ) / (denom : ℚ) else 0

/-- Python `JERSEY_MARKERS`. -/
def jerseyMarkers : List String := ["JLR", "JRC", "JCA", "Jersey"]

/-- Python `UK_MARKERS`. -/
def ukMarkers : List String :=
  ["EWCA", "EWHC", "UKHL", "UKSC", "WLR", "All ER", "AC", "QB", "Ch", "Fam"]

/-- The joined citation/jurisdiction fields used by the marker tests. -/
def markerFields (r : Row) : String :=
  getD r "Citation" ++ " " ++ getD r "Jurisdiction" ++ " " ++
  getD r "citation" ++ " " ++ getD r "jurisdiction"

/-- Python `looks_jersey`. -/
def looksJersey (r : Row) : Bool :=
  jerseyMarkers.any (fun m => strContains (markerFields r) m)

/-- Python `looks_uk`. -/
def looksUk (r : Row) : Bool :=
  ukMarkers.any (fun m => strContains (markerFields r) m)

/-- Python `choose_domains`. -/
def chooseDomains (r : Row) : List String :=
  if looksJersey r then ["www.jerseylaw.je", "www.bailii.org"]
  else if looksUk r then ["www.bailii.org", "www.jerseylaw.je"]
  else ["www.jerseylaw.je", "www.bailii.org"]

/-- Python `ALLOWED_SITES`. -/
def allowedSites : List String := ["www.jerseylaw.je", "www.bailii.org"]

/-- The query list built by `resolve_url_for_row`: domain-scoped exact-title
searches (with and without the citation), then the domain-free queries. -/
def rowQueries (r : Row) (title cite : String) : List String :=
  ((chooseDomains r).flatMap (fun d =>
    ["\"" ++ title ++ "\" site:" ++ d] ++
    (if cite ≠ "" then ["\"" ++ title ++ "\" " ++ cite ++ " site:" ++ d] else [])))
  ++ [pyStrip ("\"" ++ title ++ "\" " ++ cite)]
  ++ (if cite ≠ "" then ["\"" ++ title ++ "\" " ++ ((pySplitWs cite).headD "")] else [])

/-- The request URL recorded for a DDG query (parameter encoding folded
into the label; only the identity of the request matters to the trace). -/
def ddgReqUrl (q : String) : String := "https://duckduckgo.com/html/?q=" ++ q

/-- The inner per-hit loop of `resolve_url_for_row`: skip seen hits, fetch,
verify; returns a verdict when one is reached, else the grown seen set;
each fetch is one request event. -/
def scanHits (w : EWorld) (title cite : String) :
    List String → List String → Option (Option String × String) × List String × List Ev
  | [], seen => (none, seen, [])
  | u :: us, seen =>
    if u ∈ seen then scanHits w title cite us seen
    else
      match w.fetchPage u with
      | none =>
        let (r, s, evs) := scanHits w title cite us (u :: seen)
        (r, s, Ev.req u :: evs)
      | some htmlTxt =>
        if w.verify title cite htmlTxt then (some (some u, "ok"), u :: seen, [Ev.req u])
        else
          let (r, s, evs) := scanHits w title cite us (u :: seen)
          (r, s, Ev.req u :: evs)

/-- The per-query loop of `resolve_url_for_row`: each DDG query is one
request; a raised exception there yields the `ddg-error` verdict (the
exception type name in the reason string is elided); hits are filtered to
the allowed sites and the first five are scanned. -/
def resolveLoop (w : EWorld) (title cite : String) :
    List String → List String → (Option String × String) × List Ev
  | _seen, [] => ((none, "no-verified-match"), [])
  | seen, q :: qs =>
    match w.ddg q with
    | .error _ => ((none, "ddg-error"), [Ev.req (ddgReqUrl q)])
    | .ok hits0 =>
      let hits := hits0.filter (fun u => allowedSites.any (fun dom =>
        pyStartsWith u ("https://" ++ dom) ∨ pyStartsWith u ("http://" ++ dom)))
      match scanHits w title cite (hits.take 5) seen with
      | (some v, _, evs) => (v, Ev.req (ddgReqUrl q) :: evs)
      | (none, seen2, evs) =>
        let (r, evs2) := resolveLoop w title cite seen2 qs
        (r, Ev.req (ddgReqUrl q) :: (evs ++ evs2))

/-- The effective title of a row: `(row.get("Title") or row.get("title") or
"").strip()`. -/
def rowTitle (r : Row) : String :=
  pyStrip (pyOrStr (getOpt r "Title") (pyOrStr (getOpt r "title") ""))

/-- The effective citation of a row. -/
def rowCite (r : Row) : String :=
  pyStrip (pyOrStr (getOpt r "Citation") (pyOrStr (getOpt r "citation") ""))

/-- Python `resolve_url_for_row`. -/
def resolveRow (w : EWorld) (r : Row) : (Option String × String) × List Ev :=
  let title := rowTitle r
  let cite := rowCite r
  if title = "" then ((none, "no-title"), [])
  else resolveLoop w title cite [] (rowQueries r title cite)

/-- The main loop of `enrich_urls.main` over the slice indices: skip rows
without a title, keep rows that already carry a URL (no request, no sleep),
otherwise resolve and sleep once after the row. -/
def euLoop (w : EWorld) : List Nat → List Row → List Row × List Ev
  | [], rows => (rows, [])
  | i :: is, rows =>
    let r := rows.getD i []
    if rowTitle r = "" then euLoop w is rows
    else if truthyOpt (getOpt r "url") then euLoop w is rows
    else
      let (v, tr) := resolveRow w r
      let rows2 := if truthyOpt v.1 then rows.set i (setKey r "url" (v.1.getD "")) else rows
      let (rows3, evs) := euLoop w is rows2
      (rows3, tr ++ Ev.slp :: evs)

/-- Python `enrich_urls.main`: compute the slice `[max 0 start, e)` with
`e = n` when `end < 0` else `min n end`; when the slice is empty the script
returns without writing (`none`); otherwise the url column is ensured on
every row in memory, the slice is processed and all rows are written. -/
def enrichUrlsMain (w : EWorld) (rows : List Row) (startA endA : Int) :
    Option (List Row) × List Ev :=
  let n : Int := rows.length
  let s : Int := max 0 startA
  let e : Int := if endA < 0 then n else min n endA
  if s ≥ e then (none, [])
  else
    let rows1 := rows.map ensureUrl
    let idxs := (pyRange s e).map Int.toNat
    let (rows2, evs) := euLoop w idxs rows1
    (some rows2, evs)

/-! ## data/tools/scrape_cases_to_breaches.py

`urllib` fetching, the domain check (`urllib.parse.urlparse`) and the
on-disk cache are abstracted into `SWorld`.  The cache is a static oracle:
the code also writes fetched pages into the cache, which only changes which
branch later calls take, and every branch is covered by the quantification
over worlds.  The per-case analysis after a successful fetch
(`extract_paragraphs`, `detect_breaches`, `consolidate`, JSON writes) is
pure computation that issues no request, sleeps never and raises nothing,
and is elided from this embedding. -/

structure SWorld where
  /-- Python `same_domain_ok`. -/
  domOk : String → Bool
  /-- Cache lookup for a URL. -/
  cache : String → Option String
  /-- Outcome of the `urllib.request.urlopen` attempt number `i` (0-based)
  for a URL: page text, or an exception. -/
  attempt : String → Nat → Option String

/-- The retry loop of `polite_fetch`: each attempt is one request event
followed by one sleep (`SLEEP_BETWEEN` after success, the backoff
`1.5 + i` after an exception). -/
def politeFetchGo (w : SWorld) (url : String) : Nat → Nat → Option String × List Ev
  | 0, _ => (none, [])
  | fuel + 1, i =>
    match w.attempt url i with
    | some h => (some h, [Ev.req url, Ev.slp])
    | none =>
      let (r, evs) := politeFetchGo w url fuel (i + 1)
      (r, Ev.req url :: Ev.slp :: evs)

/-- Python `polite_fetch`: reject disallowed domains, serve from cache without a
request, else retry up to `MAX_RETRIES = 3` times. -/
def politeFetch (w : SWorld) (url : String) : Option String × List Ev :=
  if ¬ w.domOk url then (none, [])
  else
    match w.cache url with
    | some h => (some h, [])
    | none => politeFetchGo w url 3 0

/-- The row loop of `scrape_cases_to_breaches.main`: `row["case_id"]` and
`row["url"]` raise `KeyError` when the column is absent; a failed fetch is
a warning and the loop continues. -/
def scrapeLoop (w : SWorld) : List Row → Except Fatal Unit × List Ev
  | [] => (.ok (), [])
  | r :: rs =>
    match getOpt r "case_id" with
    | none => (.error .exc, [])
    | some _cid =>
      match getOpt r "url" with
      | none => (.error .exc, [])
      | some url0 =>
        let url := pyStrip url0
        let (_html, evs) := politeFetch w url
        let (res, evs2) := scrapeLoop w rs
        (res, evs ++ evs2)

/-- Python `scrape_cases_to_breaches.main`: `sys.exit(2)` when `data/cases.csv` is
missing (`none`), else process every row. -/
def scrapeMain (w : SWorld) (csvFile : Option (List Row)) : Except Fatal Unit × List Ev :=
  match csvFile with
  | none => (.error (.exit 2), [])
  | some rows => scrapeLoop w rows

/-! ## tools/clean_cases.py

`re_pages_tail` and `re_multi_space` are embedded concretely.
`re.sub(pat, "", t)` for a `$`-anchored pattern removes the suffix starting
at the leftmost position from which the pattern matches through to the end
of the string (`$` matching just before a trailing newline is not
modelled; no claim input has one). -/

/-- Consume `\d{1,3}(?:-\d{1,3})?` from the front; `none` when no parse can
continue (a maximal digit run longer than 3 can never be followed by a
valid continuation, so requiring the maximal run to have length 1..3 is
exact). -/
def numRange (l : List Char) : Option (List Char) :=
  let d := l.takeWhile Char.isDigit
  if d.length = 0 ∨ d.length > 3 then none
  else
    match l.drop d.length with
    | '-' :: r2 =>
      let d2 := r2.takeWhile Char.isDigit
      if d2.length = 0 ∨ d2.length > 3 then none else some (r2.drop d2.length)
    | rest => some rest

/-- Python `(?:\s*,\s*\d{1,3}(?:-\d{1,3})?)*\s*$` (fuel bounds the number of
items; each item consumes at least its comma, so `length + 1` suffices). -/
def ptItems : Nat → List Char → Bool
  | 0, _ => false
  | fuel + 1, l =>
    let l1 := l.dropWhile pyIsSpace
    match l1 with
    | [] => true
    | ',' :: r =>
      match numRange (r.dropWhile pyIsSpace) with
      | none => false
      | some rest => ptItems fuel rest
    | _ => false

/-- Full match of `re_pages_tail` = `\s*,\s*\d{1,3}(?:-\d{1,3})?`
`(?:\s*,\s*\d{1,3}(?:-\d{1,3})?)*\s*$` against the whole list. -/
def matchPagesTail (l : List Char) : Bool :=
  match l.dropWhile pyIsSpace with
  | ',' :: r =>
    match numRange (r.dropWhile pyIsSpace) with
    | none => false
    | some rest => ptItems (rest.length + 1) rest
  | _ => false

/-- Leftmost position from which `re_pages_tail` matches to the end. -/
def pagesTailStart (l : List Char) : Option Nat :=
  (List.range (l.length + 1)).find? (fun i => matchPagesTail (l.drop i))

/-- Python `re_pages_tail.sub` with an empty replacement. -/
def subPagesTail (s : String) : String :=
  match pagesTailStart s.data with
  | none => s
  | some i => ⟨s.data.take i⟩

/-- Python `clean_title`. -/
def cleanTitle (title : String) : String :=
  let t := pyStripChars [' ', ',', ';', Char.ofNat 0xa0] (subPagesTail title)
  pyStrip (collapseWs t)

/-- The row loop of `clean_cases.main`: `row["title"]` raises `KeyError`
when absent; every row is appended with its cleaned title, with no check
on the result. -/
def cleanCasesRows : List Row → Except Fatal (List Row)
  | [] => .ok []
  | r :: rs =>
    match getOpt r "title" with
    | none => .error .exc
    | some original => do
      let rest ← cleanCasesRows rs
      pure (setKey r "title" (cleanTitle original) :: rest)

/-- Python `clean_cases.main` (file IO aside): clean every row; an empty result
makes `rows_out[0].keys()` raise `IndexError` at write time. -/
def cleanCasesMain (rows : List Row) : Except Fatal (List Row) := do
  let out ← cleanCasesRows rows
  if out.isEmpty then .error .exc else pure out

/-! ## tools/extract_cases_from_lines.py

The regex classifiers of `looks_like_header_or_noise` and the parsing
helpers (`split_title_and_rest`, `normalize_title`, `extract_year`,
`clean_citation_and_pinpoints`) are abstracted into `XWorld`; the noise
short-circuit on the stripped-empty string and the output guards (empty
title, "table of cases", no-ASCII-letter) are embedded concretely — they
are the code that decides the claims. -/

structure XWorld where
  /-- Python `TABLE_HEADER_RE.match`. -/
  tableHeader : String → Bool
  /-- Python `ROMAN_RE.match`. -/
  roman : String → Bool
  /-- Python `PAGE_RANGE_LIST_RE.match`. -/
  pageRange : String → Bool
  /-- Python `split_title_and_rest`. -/
  split : String → String × String
  /-- Python `normalize_title`. -/
  normTitle : String → String
  /-- Python `extract_year`. -/
  yearOf : String → Option String
  /-- Python `clean_citation_and_pinpoints`. -/
  citpin : String → String × String

/-- Python `looks_like_header_or_noise` (single-letter headings use Python
`str.isalpha`, ASCII here). -/
def looksNoise (w : XWorld) (text : String) : Bool :=
  let t := pyStrip text
  if t = "" then true
  else if w.tableHeader t then true
  else if w.roman t then true
  else if w.pageRange t then true
  else if t.length = 1 ∧ t.data.all Char.isAlpha then true
  else false

structure XRow where
  lineNo : Int
  title : String
  year : String
  citation : String
  pinpoints : String
  deriving DecidableEq, Repr

/-- One write `skipped[line_no] = ("text": text, "reason": reason)` on the
skip report, a Python dict keyed by `line_no`: of several writes to the
same line number the LAST wins.  The loop below accumulates from the tail
of the input, so `sk` already holds the entries of the later lines: when
the key is present the later entry is kept and the current one is
discarded, exactly the overwrite the program performs.  Entry order is not
significant (the report is serialised as a JSON object keyed by
line number). -/
def skInsert (ln : Int) (text reason : String) (sk : List (Int × String × String)) :
    List (Int × String × String) :=
  if sk.any (fun e => e.1 = ln) then sk else (ln, text, reason) :: sk

/-- The line loop of `extract_cases_from_lines.main`: out-of-range lines
and noise lines are dropped with no trace; parsed lines either become a
row or a skip-report write `skipped[line_no] = (text, reason)` (later
lines overwrite earlier ones sharing a line number, see `skInsert`). -/
def xlGo (w : XWorld) (sOpt eOpt : Option Int) :
    List (Int × String) → List XRow × List (Int × String × String)
  | [] => ([], [])
  | (ln, text) :: rest =>
    let (rs, sk) := xlGo w sOpt eOpt rest
    if (match sOpt with | some s => decide (ln < s) | none => false) then (rs, sk)
    else if (match eOpt with | some e => decide (e < ln) | none => false) then (rs, sk)
    else if looksNoise w text then (rs, sk)
    else
      let title := w.normTitle (w.split text).1
      let year := pyOrStr (w.yearOf (w.split text).2) ""
      let (cit, pin) := w.citpin (w.split text).2
      if title = "" ∨ pyLower title = "table of cases" then
        (rs, skInsert ln text "title-empty-or-header" sk)
      else if ¬ hasAlpha title then
        (rs, skInsert ln text "no-alpha-in-title" sk)
      else
        (⟨ln, title, year, cit, pin⟩ :: rs, sk)

/-- Stable insertion into a list sorted by line number (equal keys keep
their original order, as Python `sorted` guarantees). -/
def insertByLine (x : XRow) : List XRow → List XRow
  | [] => [x]
  | y :: ys => if x.lineNo < y.lineNo then x :: y :: ys else y :: insertByLine x ys

/-- Stable sort by line number (`sorted(rows, key=lambda r: r["line_no"])`). -/
def sortByLine : List XRow → List XRow
  | [] => []
  | x :: xs => insertByLine x (sortByLine xs)

/-- Python `extract_cases_from_lines.main`: process the lines, then write the rows
sorted by line number.  The skip report is the dict built by the
`skInsert` writes: one entry per skipped line number, carrying the last
written text and reason. -/
def extractLinesMain (w : XWorld) (data : List (Int × String)) (sOpt eOpt : Option Int) :
    List XRow × List (Int × String × String) :=
  let (rows, sk) := xlGo w sOpt eOpt data
  (sortByLine rows, sk)

/-! ## tools/rebuild_cases_from_ltj_lines.py

`parse_line` (regex heuristics) is fully abstracted; the claim is about the
routing of in-range lines into the rows CSV or the missing CSV.  The row
type is a parameter since nothing about its fields is claimed. -/

/-- The subset/routing logic of `rebuild_cases_from_ltj_lines.main`:
in-range lines are parsed into rows or recorded as missing. -/
def rebuildGo {ρ : Type} (parse : Int → String → Option ρ) :
    List (Int × String) → List ρ × List (Int × String)
  | [] => ([], [])
  | (ln, txt) :: rest =>
    let (rs, ms) := rebuildGo parse rest
    match parse ln txt with
    | some r => (r :: rs, ms)
    | none => (rs, (ln, txt) :: ms)

/-- Python `rebuild_cases_from_ltj_lines.main`: filter to the inclusive
`[start, end]` range, then route every subset line. -/
def rebuildMain {ρ : Type} (parse : Int → String → Option ρ)
    (lines : List (Int × String)) (s e : Int) : List ρ × List (Int × String) :=
  rebuildGo parse (lines.filter (fun p => s ≤ p.1 ∧ p.1 ≤ e))

/-! ## tools/extract_cases.py

The input `LTJ.lines.json` is modelled as missing, malformed, or an array
of records with string or integer fields (an array of non-objects or other
field types would raise in ways outside the modelled input space).
`guess_case_id` builds on `re.search` over `CASE_PATTERNS`; it is a
parameter `g`, with `none` for the `(None, None, None)` result.  The claims
quantify over `g`, so they hold for the concrete regex behaviour. -/

inductive JVal where
  | i (n : Int)
  | s (str : String)
  deriving DecidableEq, Repr

abbrev JRec := List (String × JVal)

inductive LFile where
  | missing
  | badJson
  | arr (recs : List JRec)

/-- Dict access on a JSON record. -/
def jget (r : JRec) (k : String) : Option JVal :=
  (r.find? (fun p => p.1 = k)).map (·.2)

/-- Python `int(s)` on a string: strip, optional sign, decimal digits
(underscore separators are not modelled). -/
def pyIntOfStr (s : String) : Option Int :=
  let t := (pyStrip s).data
  let core : List Char → Option Int := fun ds =>
    if ds.isEmpty ∨ ¬ ds.all Char.isDigit then none
    else some (ds.foldl (fun acc c => acc * 10 + (c.toNat - 48 : Int)) 0)
  match t with
  | '-' :: ds => (core ds).map (fun n => -n)
  | '+' :: ds => core ds
  | ds => core ds

/-- Python `int(v)` on a JSON value. -/
def pyInt : JVal → Option Int
  | .i n => some n
  | .s str => pyIntOfStr str

/-- Python `str(v)` on a JSON value. -/
def pyStrOf : JVal → String
  | .i n => toString n
  | .s str => str

/-- A successful `guess_case_id` result. -/
structure GRes where
  id : String
  jur : String
  year : Option String

/-- The case row written by `extract_cases.main`. -/
structure CRow where
  caseId : String
  jurisdiction : String
  title : String
  year : String
  sourceUrl : String
  deriving DecidableEq, Repr

/-- The range filter
`[row for row in data if start <= int(row.get("line", -1)) <= end]`:
`int()` is applied to every record and raises on non-numeric values. -/
def extractCasesFilter (s e : Int) : List JRec → Except Fatal (List JRec)
  | [] => .ok []
  | r :: rs =>
    match pyInt ((jget r "line").getD (.i (-1))) with
    | none => .error .exc
    | some ln => do
      let rest ← extractCasesFilter s e rs
      pure (if s ≤ ln ∧ ln ≤ e then r :: rest else rest)

/-- Python `title[:297] + "..."` when over 300 characters. -/
def trimTitle (t : String) : String :=
  if t.length > 300 then ⟨t.data.take 297⟩ ++ "..." else t

/-- The emit loop of `extract_cases.main`: `seen` dedupes case ids, keeping
the first occurrence; the written title is the stripped line text, trimmed
to 300 characters. -/
def extractCasesEmit (g : String → Option GRes) (seen : List String) :
    List JRec → List CRow
  | [] => []
  | r :: rs =>
    let text := pyStrOf ((jget r "text").getD (.s ""))
    match g text with
    | none => extractCasesEmit g seen rs
    | some gr =>
      if gr.id ≠ "" ∧ gr.id ∉ seen then
        ⟨gr.id, gr.jur, trimTitle (pyStrip text), gr.year.getD "", ""⟩ ::
          extractCasesEmit g (gr.id :: seen) rs
      else extractCasesEmit g seen rs

/-- Python `extract_cases.main`: `sys.exit(2)` when the lines file is missing, an
uncaught exception when its JSON is malformed, else filter and emit. -/
def extractCasesMain (g : String → Option GRes) (f : LFile) (s e : Int) :
    Except Fatal (List CRow) :=
  match f with
  | .missing => .error (.exit 2)
  | .badJson => .error .exc
  | .arr data => do
    let rows ← extractCasesFilter s e data
    pure (extractCasesEmit g [] rows)

/-! ## tools/build_candidates.py

The two JSON inputs load through `load_json`, which exits with status 1
(`sys.exit(message)`) when the file is missing and propagates the
`json.load` exception when the content is malformed.  Loaded citation
records are modelled with string fields (`statutes`, a list-valued field
copied through unchanged, is elided). -/

inductive JFile where
  | missing
  | badJson
  | arr (recs : List Row)
  | nonArr

/-- Python `load_json`: the `isinstance(citations, list)` distinction is preserved
in the payload (`none` = loaded but not a list). -/
def loadJson : JFile → Except Fatal (Option (List Row))
  | .missing => .error (.exit 1)
  | .badJson => .error .exc
  | .arr recs => .ok (some recs)
  | .nonArr => .ok none

/-- Python `KEYWORDS`. -/
def bcKeywords : List String :=
  ["breach of trust", "fiduciary", "breach", "duty", "misappropriation"]

/-- Python `a or b` on two optional strings. -/
def pyOrOpt (a b : Option String) : Option String :=
  match a with
  | none => b
  | some s => if s = "" then b else some s

structure BCand where
  jurisdiction : Option String
  pid : Option String
  authorityId : Option String
  authorityLabel : Option String
  snippet : String
  cues : List String
  deriving DecidableEq, Repr

/-- The candidate filter of `build_candidates.main`. -/
def buildCandidates (recs : List Row) : List BCand :=
  recs.filterMap (fun c =>
    if pyLower (getD c "authority_kind") ≠ "case" then none
    else
      let snippet := pyLower (pyOrStr (getOpt c "snippet") "")
      if bcKeywords.any (fun k => strContains snippet k) then
        some
          { jurisdiction := getOpt c "jurisdiction"
            pid := pyOrOpt (getOpt c "from_pid") (getOpt c "pid")
            authorityId := pyOrOpt (getOpt c "to") (getOpt c "authority_id")
            authorityLabel := pyOrOpt (getOpt c "to_label") (getOpt c "authority_label")
            snippet := getD c "snippet"
            cues := match getOpt c "cue" with
              | some cue => if cue = "" then [] else [cue]
              | none => [] }
      else none)

/-- Python `build_candidates.main`: load both inputs (each load can exit or
raise), then build candidates from the citation list. -/
def buildCandidatesMain (f1 f2 : JFile) : Except Fatal (List BCand) := do
  let _lines ← loadJson f1
  let cits ← loadJson f2
  match cits with
  | none => pure []
  | some recs => pure (buildCandidates recs)

/-! ## Specification-side definitions and helper predicates -/

/-- One DDG fallback stage as the spec describes it: query with the site
filter, take the first hit, validate it by fetching and the plausibility
check, upgrade to a PDF link on the known domains.  A failed validation is
a failed stage (`none`); an exception from the DDG query itself escapes. -/
def ddgStage (w : UWorld) (title citation site : String) : Except Unit (Option String) := do
  let hit ← ddgFirst w (ddgSiteQuery title citation site)
  match hit with
  | none => pure none
  | some h =>
    if h = "" then pure none
    else
      match w.httpGet h [] with
      | .error _ => pure none
      | .ok page =>
        if w.plausOk page title citation then
          if strContains h "jerseylaw.je" then pure (some (pyOrStr (jlibExtractPdf w page) h))
          else if strContains h "bailii.org" then pure (some (pyOrStr (bailiiExtractPdf w page) h))
          else pure (some h)
        else pure none

/-- The fixed fallback chain claimed by the spec: JerseyLaw search, BAILII
search, DDG with `site:jerseylaw.je/judgments`, DDG with
`site:bailii.org`. -/
def chainStages (w : UWorld) (title citation : String) : List (Except Unit (Option String)) :=
  [ .ok (stageCaught (jlibFind w title citation)),
    .ok (stageCaught (bailiiFind w title citation)),
    ddgStage w title citation "site:jerseylaw.je/judgments",
    ddgStage w title citation "site:bailii.org" ]

/-- Generic first-success combinator over a stage list: the first stage
that yields a URL wins, and the result is `none` only when every stage
fails. -/
def firstHit : List (Except Unit (Option String)) → Except Unit (Option String)
  | [] => .ok none
  | s :: rest =>
    match s with
    | .error e => .error e
    | .ok (some u) => .ok (some u)
    | .ok none => firstHit rest

/-- Two consecutive request events with nothing between them. -/
def hasAdjReq : List Ev → Bool
  | Ev.req _ :: Ev.req _ :: _ => true
  | _ :: t => hasAdjReq t
  | [] => false

/-- Every request event is immediately followed by a sleep event (so no
two requests are adjacent, and a trace never ends on an unslept
request). -/
def reqThenSlp : List Ev → Bool
  | [] => true
  | Ev.req _ :: Ev.slp :: t => reqThenSlp t
  | Ev.slp :: t => reqThenSlp t
  | Ev.req _ :: _ => false

/-- A row index the `enrich_urls` main loop attempts to resolve: the row
has a title and no existing URL. -/
def attemptedIdx (rows : List Row) (i : Nat) : Bool :=
  if rowTitle (rows.getD i []) = "" then false
  else if truthyOpt (getOpt (rows.getD i []) "url") then false
  else true

/-- The slice indices processed by `enrich_urls.main` (empty when the
slice is empty). -/
def euSliceIdxs (rows : List Row) (startA endA : Int) : List Nat :=
  let n : Int := rows.length
  let s : Int := max 0 startA
  let e : Int := if endA < 0 then n else min n endA
  (pyRange s e).map Int.toNat

/-- Keep the first occurrence of every string, in order. -/
def firstDedupGo (seen : List String) : List String → List String
  | [] => []
  | x :: xs => if x ∈ seen then firstDedupGo seen xs else x :: firstDedupGo (x :: seen) xs

/-- Keep the first occurrence of every string, in order. -/
def firstDedup (l : List String) : List String := firstDedupGo [] l

/-- The candidate case ids of the in-range records, in order (truthy ids
of successful guesses). -/
def candIds (g : String → Option GRes) (rows : List JRec) : List String :=
  rows.filterMap (fun r =>
    match g (pyStrOf ((jget r "text").getD (.s ""))) with
    | none => none
    | some gr => if gr.id = "" then none else some gr.id)

/-- A JSON input `load_json` accepts without terminating the script. -/
def loadOk : JFile → Bool
  | .missing => false
  | .badJson => false
  | .arr _ => true
  | .nonArr => true

/-! ### Concrete worlds for counterexamples and witnesses -/

/-- A world in which every HTTP request raises (network down). -/
def uFailWorld : UWorld :=
  ⟨fun _ _ => .error (), fun _ => "", fun _ _ => [], fun _ => none, fun _ => none,
   fun _ _ _ => false, fun _ => none, fun _ => false⟩

/-- A world in which the JerseyLaw search immediately yields a plausible
judgment page with no PDF link. -/
def uJerseyWorld : UWorld :=
  ⟨fun _ _ => .ok "page", fun _ => "",
   fun _ sel => if sel = "a[href*=/judgments/]" then ["/judgments/j1"] else [],
   fun _ => none, fun _ => none, fun _ _ _ => true, fun _ => none, fun _ => false⟩

/-- A world in which every fetch succeeds but no search yields any
anchor: every resolution completes with no verified match. -/
def uNoneWorld : UWorld :=
  ⟨fun _ _ => .ok "", fun _ => "", fun _ _ => [], fun _ => none, fun _ => none,
   fun _ _ _ => false, fun _ => none, fun _ => false⟩

/-- An `enrich_urls` world in which every DDG query succeeds with an empty
result list. -/
def eNoHits : EWorld := ⟨fun _ => .ok [], fun _ => none, fun _ _ _ => false⟩

/-- An `extract_cases_from_lines` world with trivial classifiers: nothing
matches the noise regexes, and a line splits into itself as title with
empty rest. -/
def xTrivial : XWorld :=
  ⟨fun _ => false, fun _ => false, fun _ => false, fun t => (t, ""),
   fun t => t, fun _ => none, fun _ => ("", "")⟩

/-! ## Helper lemmas -/

/-- The token-set Jaccard value underlying `titleSimilarity`, over abstract
finsets (proof infrastructure; `titleSimilarity` reduces to it). -/
def jaccardQ (ta tb : Finset String) : ℚ :=
  if ta = ∅ ∨ tb = ∅ then 0
  else
    let inter := (ta ∩ tb).card
    let denom := (ta ∪ tb).card
    if denom ≠ 0 then (inter : ℚ) / (denom : ℚ) else 0

theorem titleSimilarity_eq_jaccardQ (ue : String → String) (a b : String) :
    titleSimilarity ue a b =
      jaccardQ (pySplitWs (normE ue a)).toFinset (pySplitWs (normE ue b)).toFinset := rfl

theorem jaccardQ_props (ta tb : Finset String) :
    jaccardQ ta tb = jaccardQ tb ta ∧ 0 ≤ jaccardQ ta tb ∧ jaccardQ ta tb ≤ 1 ∧
    (ta = ∅ ∨ tb = ∅ → jaccardQ ta tb = 0) := by
  unfold jaccardQ
  refine ⟨?_, ?_, ?_, ?_⟩
  · by_cases h : ta = ∅ ∨ tb = ∅
    · rw [if_pos h, if_pos h.symm]
    · have h2 : ¬ (tb = ∅ ∨ ta = ∅) := fun hh => h hh.symm
      rw [if_neg h, if_neg h2, Finset.inter_comm, Finset.union_comm]
  · by_cases h : ta = ∅ ∨ tb = ∅
    · rw [if_pos h]
    · rw [if_neg h]
      by_cases hd : (ta ∪ tb).card ≠ 0
      · rw [if_pos hd]
        exact div_nonneg (Nat.cast_nonneg _) (Nat.cast_nonneg _)
      · rw [if_neg hd]
  · by_cases h : ta = ∅ ∨ tb = ∅
    · rw [if_pos h]; norm_num
    · rw [if_neg h]
      have hne : ta.Nonempty := Finset.nonempty_iff_ne_empty.mpr (fun hh => h (Or.inl hh))
      have hpos : 0 < (ta ∪ tb).card :=
        Finset.card_pos.mpr (hne.mono Finset.subset_union_left)
      have hd : (ta ∪ tb).card ≠ 0 := Nat.pos_iff_ne_zero.mp hpos
      rw [if_pos hd]
      rw [div_le_one (by exact_mod_cast hpos)]
      exact_mod_cast Finset.card_le_card
        (Finset.inter_subset_left.trans Finset.subset_union_left)
  · intro h
    rw [if_pos h]

/-- Unfolding the DDG fallback loop one site at a time: the loop on
`site :: rest` behaves as the single-site stage followed by the loop on
`rest`. -/
theorem ddgLoop_cons_eq (w : UWorld) (t c site : String) (rest : List String) :
    ddgLoop w t c (site :: rest) =
      match ddgStage w t c site with
      | .error e => .error e
      | .ok (some u) => .ok (some u)
      | .ok none => ddgLoop w t c rest := by
  show (ddgFirst w (ddgSiteQuery t c site)).bind _ =
    match (ddgFirst w (ddgSiteQuery t c site)).bind _ with
    | Except.error e => Except.error e
    | Except.ok (some u) => Except.ok (some u)
    | Except.ok none => ddgLoop w t c rest
  cases hd : ddgFirst w (ddgSiteQuery t c site) with
  | error e => rfl
  | ok o =>
    cases o with
    | none => rfl
    | some h =>
      show (if h = "" then ddgLoop w t c rest else _) =
        match (if h = "" then Except.ok none else _) with
        | Except.error e => Except.error e
        | Except.ok (some u) => Except.ok (some u)
        | Except.ok none => ddgLoop w t c rest
      by_cases hb : h = ""
      · simp only [if_pos hb]
      · simp only [if_neg hb]
        cases hg : w.httpGet h [] with
        | error e => rfl
        | ok page =>
          by_cases hp : w.plausOk page t c
          · simp only [if_pos hp]
            by_cases hj : strContains h "jerseylaw.je"
            · simp only [if_pos hj]; rfl
            · simp only [if_neg hj]
              by_cases hbb : strContains h "bailii.org"
              · simp only [if_pos hbb]; rfl
              · simp only [if_neg hbb]; rfl
          · simp only [if_neg hp]; rfl

/-- An error escaping the DDG loop originates from one of the per-site
`ddg_first` calls. -/
theorem ddgLoop_error_source (w : UWorld) (t c : String) (e : Unit) :
    ∀ sites : List String, ddgLoop w t c sites = .error e →
      ∃ site ∈ sites, ddgFirst w (ddgSiteQuery t c site) = .error e := by
  intro sites
  induction sites with
  | nil => intro h; exact Except.noConfusion h
  | cons site rest ih =>
    intro h
    rw [ddgLoop_cons_eq] at h
    cases hd : ddgStage w t c site with
    | error e2 =>
      rw [hd] at h
      cases h
      refine ⟨site, List.mem_cons_self .., ?_⟩
      revert hd
      show (ddgFirst w (ddgSiteQuery t c site)).bind _ = Except.error e → _
      cases hf : ddgFirst w (ddgSiteQuery t c site) with
      | error e3 => intro hh; cases hh; rfl
      | ok o =>
        intro hh
        exfalso
        cases o with
        | none => cases hh
        | some s =>
          revert hh
          show (if s = "" then Except.ok none else _) = Except.error e → False
          by_cases hb : s = ""
          · simp only [if_pos hb]; intro hh; cases hh
          · simp only [if_neg hb]
            cases hg : w.httpGet s [] with
            | error e4 => intro hh; cases hh
            | ok page =>
              by_cases hp : w.plausOk page t c
              · simp only [if_pos hp]
                by_cases hj : strContains s "jerseylaw.je"
                · simp only [if_pos hj]; intro hh; cases hh
                · simp only [if_neg hj]
                  by_cases hbb : strContains s "bailii.org"
                  · simp only [if_pos hbb]; intro hh; cases hh
                  · simp only [if_neg hbb]; intro hh; cases hh
              · simp only [if_neg hp]; intro hh; cases hh
    | ok o =>
      rw [hd] at h
      cases o with
      | some u => cases h
      | none =>
        obtain ⟨site2, hmem, hres⟩ := ih h
        exact ⟨site2, List.mem_cons_of_mem _ hmem, hres⟩

/-! ## Claim theorems -/

/-- C10: for all strings `a` and `b` (and any `html.unescape` behaviour),
`title_similarity a b` equals `title_similarity b a`, its value lies in
`[0, 1]`, and it is `0` whenever either argument normalises to an empty
token set. -/
theorem titleSimilarity_symm_bounded_zero (ue : String → String) (a b : String) :
    titleSimilarity ue a b = titleSimilarity ue b a ∧
    0 ≤ titleSimilarity ue a b ∧ titleSimilarity ue a b ≤ 1 ∧
    ((pySplitWs (normE ue a)).toFinset = ∅ ∨ (pySplitWs (normE ue b)).toFinset = ∅ →
      titleSimilarity ue a b = 0) := by
  rw [titleSimilarity_eq_jaccardQ, titleSimilarity_eq_jaccardQ ue b a]
  exact jaccardQ_props _ _

/-- C10 witness: at `a = ""`, `b = "x"` with the identity unescape, the
similarity is symmetric and `0` (the first argument normalises to an empty
token set). -/
theorem titleSimilarity_symm_bounded_zero_witness :
    titleSimilarity id "" "x" = titleSimilarity id "x" "" ∧
    titleSimilarity id "" "x" = 0 := by
  have h := titleSimilarity_symm_bounded_zero id "" "x"
  refine ⟨h.1, h.2.2.2 (Or.inl ?_)⟩
  rw [show pySplitWs (normE id "") = ([] : List String) from rfl]
  exact List.toFinset_nil

/-- C5: `pick_best_url` equals the spec-side fixed fallback chain: the
stages JerseyLaw search, BAILII search, DDG `site:jerseylaw.je/judgments`,
DDG `site:bailii.org` are tried in order by a generic first-success
combinator; a stage win is returned (PDF-upgraded inside the stage) and
`none` results only when every stage fails. -/
theorem pickBestUrl_eq_firstHit_chain (w : UWorld) (t c : String) :
    pickBestUrl w t c = firstHit (chainStages w t c) := by
  unfold pickBestUrl chainStages
  simp only [firstHit]
  cases h1 : stageCaught (jlibFind w t c) with
  | some u => rfl
  | none =>
    cases h2 : stageCaught (bailiiFind w t c) with
    | some u => rfl
    | none =>
      show ddgLoop w t c ddgSites = _
      rw [show ddgSites = ["site:jerseylaw.je/judgments", "site:bailii.org"] from rfl]
      rw [ddgLoop_cons_eq]
      cases hs1 : ddgStage w t c "site:jerseylaw.je/judgments" with
      | error e => rfl
      | ok o =>
        cases o with
        | some u => rfl
        | none =>
          rw [ddgLoop_cons_eq]
          cases hs2 : ddgStage w t c "site:bailii.org" with
          | error e => rfl
          | ok o2 => cases o2 <;> rfl

/-- C1 (amended): `pick_best_url` catches `FetchError` from `jlib_find`,
`bailii_find` and from fetching DDG hit pages, but an exception escaping
it can only originate from one of the two `ddg_first` calls, whose
`FetchError` is not caught. -/
theorem pickBestUrl_error_only_from_ddg (w : UWorld) (t c : String) (e : Unit)
    (h : pickBestUrl w t c = .error e) :
    ∃ site ∈ ddgSites, ddgFirst w (ddgSiteQuery t c site) = .error e := by
  unfold pickBestUrl at h
  cases h1 : stageCaught (jlibFind w t c) with
  | some u => rw [h1] at h; cases h
  | none =>
    rw [h1] at h
    cases h2 : stageCaught (bailiiFind w t c) with
    | some u => rw [h2] at h; cases h
    | none =>
      rw [h2] at h
      exact ddgLoop_error_source w t c e ddgSites h

/-- C1 witness: in the world where every request raises, the escaping
error is traced to a `ddg_first` call. -/
theorem pickBestUrl_error_only_from_ddg_witness :
    ∃ site ∈ ddgSites, ddgFirst uFailWorld (ddgSiteQuery "T" "C" site) = .error () :=
  pickBestUrl_error_only_from_ddg uFailWorld "T" "C" () (by rfl)

/-- C1 counterexample: with the network down, `jlib_find` and
`bailii_find` failures are caught, but the `FetchError` raised inside
`ddg_first` propagates out of `pick_best_url` instead of yielding a URL or
`None`. -/
theorem pickBestUrl_uncaught_ddg_error :
    pickBestUrl uFailWorld "A v B" "C" = .error () := by rfl

/-- Membership is preserved by stable insertion. -/
theorem mem_insertByLine (x r : XRow) (l : List XRow) :
    r ∈ insertByLine x l ↔ r = x ∨ r ∈ l := by
  induction l with
  | nil => simp [insertByLine]
  | cons y ys ih =>
    by_cases h : x.lineNo < y.lineNo
    · simp only [insertByLine, if_pos h]
      exact List.mem_cons
    · simp only [insertByLine, if_neg h]
      rw [List.mem_cons, ih, List.mem_cons]
      tauto

/-- Membership is preserved by the stable sort. -/
theorem mem_sortByLine (r : XRow) (l : List XRow) :
    r ∈ sortByLine l ↔ r ∈ l := by
  induction l with
  | nil => simp [sortByLine]
  | cons y ys ih => simp only [sortByLine, mem_insertByLine, List.mem_cons, ih]

/-- Every row emitted by the `extract_cases_from_lines` loop passed the
non-empty-title and has-a-letter guards. -/
theorem xlGo_title_invariant (w : XWorld) (sOpt eOpt : Option Int) :
    ∀ data r, r ∈ (xlGo w sOpt eOpt data).1 → r.title ≠ "" ∧ hasAlpha r.title = true := by
  intro data
  induction data with
  | nil => intro r hr; exact absurd hr (by simp [xlGo])
  | cons p rest ih =>
    obtain ⟨ln, text⟩ := p
    intro r hr
    rcases hsplit : xlGo w sOpt eOpt rest with ⟨rs, sk⟩
    simp only [xlGo, hsplit] at hr
    split at hr
    · exact ih r (by rw [hsplit]; exact hr)
    · split at hr
      · exact ih r (by rw [hsplit]; exact hr)
      · split at hr
        · exact ih r (by rw [hsplit]; exact hr)
        · split at hr
          · exact ih r (by rw [hsplit]; exact hr)
          · rename_i hguard
            split at hr
            · exact ih r (by rw [hsplit]; exact hr)
            · rename_i halpha
              rcases List.mem_cons.mp hr with hr1 | hr2
              · subst hr1
                push_neg at hguard
                exact ⟨hguard.1, by simpa using halpha⟩
              · exact ih r (by rw [hsplit]; exact hr2)

/-- C2 (amended): the extraction script `extract_cases_from_lines` emits
only rows whose title is non-empty (indeed contains an ASCII letter); the
cleaning scripts do not enforce this on their output —
`clean_cases.py` writes every row with its cleaned title even when the
cleaning empties it (see the counterexample). -/
theorem extractLines_titles_nonempty (w : XWorld) (data : List (Int × String))
    (sOpt eOpt : Option Int) (r : XRow)
    (hr : r ∈ (extractLinesMain w data sOpt eOpt).1) :
    r.title ≠ "" ∧ hasAlpha r.title = true := by
  have hmem : r ∈ (xlGo w sOpt eOpt data).1 := by
    have := hr
    unfold extractLinesMain at this
    rcases hsplit : xlGo w sOpt eOpt data with ⟨rs, sk⟩
    rw [hsplit] at this
    simp only at this
    exact (mem_sortByLine r rs).mp this
  exact xlGo_title_invariant w sOpt eOpt data r hmem

/-- C2 witness: a concrete run in which a row is emitted, whose title the
theorem certifies non-empty and letter-bearing. -/
theorem extractLines_titles_nonempty_witness :
    (⟨1, "Smith v Jones", "", "", ""⟩ : XRow).title ≠ "" ∧
    hasAlpha (⟨1, "Smith v Jones", "", "", ""⟩ : XRow).title = true :=
  extractLines_titles_nonempty xTrivial [(1, "Smith v Jones")] none none
    ⟨1, "Smith v Jones", "", "", ""⟩ (by decide)

/-- C2 counterexample: `clean_cases.py` applied to a row whose title is
`", 12"` (non-empty) writes an output row whose title is the empty string:
the cleaning scripts do not enforce the non-empty-title invariant on their
outputs. -/
theorem cleanCases_emits_empty_title :
    cleanCasesMain [[("title", ", 12")]] = .ok [[("title", "")]] := by rfl

/-- The `rebuild_cases_from_ltj_lines` routing loop sends every line to
the rows or to the missing report, according to `parse_line`. -/
theorem rebuildGo_routes {ρ : Type} (parse : Int → String → Option ρ) :
    ∀ (lst : List (Int × String)) (ln : Int) (txt : String), (ln, txt) ∈ lst →
      (match parse ln txt with
       | some r => r ∈ (rebuildGo parse lst).1
       | none => (ln, txt) ∈ (rebuildGo parse lst).2) := by
  intro lst
  induction lst with
  | nil => intro ln txt h; exact absurd h (List.not_mem_nil _)
  | cons p rest ih =>
    obtain ⟨ln0, txt0⟩ := p
    intro ln txt h
    rcases hsplit : rebuildGo parse rest with ⟨rs, ms⟩
    have hgo : rebuildGo parse ((ln0, txt0) :: rest) =
        (match parse ln0 txt0 with
         | some r => (r :: rs, ms)
         | none => (rs, (ln0, txt0) :: ms)) := by
      simp only [rebuildGo, hsplit]
    rcases List.mem_cons.mp h with h1 | h2
    · cases h1
      rw [hgo]
      cases hp : parse ln0 txt0 with
      | some r => simp [hp]
      | none => simp [hp]
    · have hmem := ih ln txt h2
      rw [hsplit] at hmem
      rw [hgo]
      cases hp2 : parse ln txt with
      | some r =>
        rw [hp2] at hmem
        simp only at hmem
        cases hp : parse ln0 txt0 <;> simp [hp, hp2, hmem]
      | none =>
        rw [hp2] at hmem
        simp only at hmem
        cases hp : parse ln0 txt0 <;> simp [hp, hp2, hmem]

/-- After a skip write, the written line number is a key of the report
(carrying either the current entry or the later one that overwrote it). -/
theorem mem_skInsert_self (ln : Int) (text reason : String)
    (sk : List (Int × String × String)) :
    ∃ text2 reason2, (ln, text2, reason2) ∈ skInsert ln text reason sk := by
  unfold skInsert
  by_cases h : sk.any (fun e => e.1 = ln)
  · rw [if_pos h]
    obtain ⟨e, he, hkey⟩ := List.any_eq_true.mp h
    obtain ⟨l0, t0, r0⟩ := e
    simp only [decide_eq_true_eq] at hkey
    subst hkey
    exact ⟨t0, r0, he⟩
  · rw [if_neg h]
    exact ⟨text, reason, List.mem_cons_self ..⟩

/-- A skip write never removes report entries. -/
theorem mem_skInsert_of_mem (entry : Int × String × String) (ln0 : Int)
    (text0 reason0 : String) (sk : List (Int × String × String)) (h : entry ∈ sk) :
    entry ∈ skInsert ln0 text0 reason0 sk := by
  unfold skInsert
  split
  · exact h
  · exact List.mem_cons_of_mem _ h

/-- Every in-range, non-noise line of the `extract_cases_from_lines` loop
leaves a trace under its line number: an output row, or a skip-report
entry keyed by that line number (whose text may come from a later skipped
line sharing the number, since the report overwrites per key). -/
theorem xlGo_routes (w : XWorld) (sOpt eOpt : Option Int) :
    ∀ (data : List (Int × String)) (ln : Int) (text : String), (ln, text) ∈ data →
      (match sOpt with | some s => decide (ln < s) | none => false) = false →
      (match eOpt with | some e => decide (e < ln) | none => false) = false →
      looksNoise w text = false →
      (∃ r ∈ (xlGo w sOpt eOpt data).1, r.lineNo = ln) ∨
      (∃ text2 reason, (ln, text2, reason) ∈ (xlGo w sOpt eOpt data).2) := by
  intro data
  induction data with
  | nil => intro ln text h; exact absurd h (List.not_mem_nil _)
  | cons p rest ih =>
    obtain ⟨ln0, text0⟩ := p
    intro ln text h hs he hn
    rcases hsplit : xlGo w sOpt eOpt rest with ⟨rs, sk⟩
    rcases List.mem_cons.mp h with h1 | h2
    · obtain ⟨h1a, h1b⟩ := Prod.mk.injEq .. ▸ h1
      subst h1a; subst h1b
      simp only [xlGo, hsplit, hs, he, hn]
      simp only [Bool.false_eq_true, if_false]
      split
      · right
        exact mem_skInsert_self ln text "title-empty-or-header" sk
      · split
        · right
          exact mem_skInsert_self ln text "no-alpha-in-title" sk
        · left
          refine ⟨_, List.mem_cons_self .., rfl⟩
    · have hres := ih ln text h2 hs he hn
      rw [hsplit] at hres
      simp only [xlGo, hsplit]
      split
      · exact hres
      · split
        · exact hres
        · split
          · exact hres
          · split
            · rcases hres with ⟨r, hr, hrl⟩ | ⟨text2, reason, hsk⟩
              · exact Or.inl ⟨r, hr, hrl⟩
              · exact Or.inr ⟨text2, reason, mem_skInsert_of_mem _ _ _ _ _ hsk⟩
            · split
              · rcases hres with ⟨r, hr, hrl⟩ | ⟨text2, reason, hsk⟩
                · exact Or.inl ⟨r, hr, hrl⟩
                · exact Or.inr ⟨text2, reason, mem_skInsert_of_mem _ _ _ _ _ hsk⟩
              · rcases hres with ⟨r, hr, hrl⟩ | ⟨text2, reason, hsk⟩
                · exact Or.inl ⟨r, List.mem_cons_of_mem _ hr, hrl⟩
                · exact Or.inr ⟨text2, reason, hsk⟩

/-- The skip report keeps only the last skipped entry per line number:
with two in-range, non-noise, no-letter lines both numbered 7, only the
later text survives in the report (the program overwrites
`skipped[7]`). -/
theorem extractLines_skip_keeps_last :
    extractLinesMain xTrivial [(7, ", 12"), (7, ", 13")] none none =
      ([], [(7, ", 13", "no-alpha-in-title")]) := by rfl

/-- C3 (amended): in `rebuild_cases_from_ltj_lines` every in-range line is
routed to the output rows or to the missing report; in
`extract_cases_from_lines` every in-range line that is not classified as
header/noise leaves a trace under its line number — an output row or a
skip-report entry keyed by that line number — but header/noise lines in
range are silently dropped (see the counterexample), and the skip report
keeps only the last skipped entry per line number, so the recorded text
and reason may come from a later line sharing the number (see
`extractLines_skip_keeps_last`). -/
theorem inRange_lines_routed :
    (∀ (ρ : Type) (parse : Int → String → Option ρ) (lines : List (Int × String))
        (s e ln : Int) (txt : String), (ln, txt) ∈ lines → s ≤ ln → ln ≤ e →
      (match parse ln txt with
       | some r => r ∈ (rebuildMain parse lines s e).1
       | none => (ln, txt) ∈ (rebuildMain parse lines s e).2)) ∧
    (∀ (w : XWorld) (data : List (Int × String)) (sOpt eOpt : Option Int)
        (ln : Int) (text : String), (ln, text) ∈ data →
      (match sOpt with | some s => decide (ln < s) | none => false) = false →
      (match eOpt with | some e => decide (e < ln) | none => false) = false →
      looksNoise w text = false →
      (∃ r ∈ (extractLinesMain w data sOpt eOpt).1, r.lineNo = ln) ∨
      (∃ text2 reason, (ln, text2, reason) ∈ (extractLinesMain w data sOpt eOpt).2)) := by
  constructor
  · intro ρ parse lines s e ln txt hmem hs he
    have hmem2 : (ln, txt) ∈ lines.filter (fun p => s ≤ p.1 ∧ p.1 ≤ e) := by
      rw [List.mem_filter]
      exact ⟨hmem, by simp [hs, he]⟩
    exact rebuildGo_routes parse _ ln txt hmem2
  · intro w data sOpt eOpt ln text hmem hs he hn
    have hres := xlGo_routes w sOpt eOpt data ln text hmem hs he hn
    unfold extractLinesMain
    rcases hsplit : xlGo w sOpt eOpt data with ⟨rs, sk⟩
    rw [hsplit] at hres
    simp only
    rcases hres with ⟨r, hr, hrl⟩ | hsk
    · exact Or.inl ⟨r, (mem_sortByLine r rs).mpr hr, hrl⟩
    · exact Or.inr hsk

/-- C3 witness: concrete instances of both routing guarantees. -/
theorem inRange_lines_routed_witness :
    ((1 : Int), "x") ∈ (rebuildMain (fun _ _ => (none : Option Unit)) [(1, "x")] 0 2).2 ∧
    ((∃ r ∈ (extractLinesMain xTrivial [(1, "Smith v Jones")] none none).1, r.lineNo = 1) ∨
     (∃ text2 reason, ((1 : Int), text2, reason) ∈
        (extractLinesMain xTrivial [(1, "Smith v Jones")] none none).2)) := by
  constructor
  · exact inRange_lines_routed.1 Unit (fun _ _ => none) [(1, "x")] 0 2 1 "x"
      (by decide) (by decide) (by decide)
  · exact inRange_lines_routed.2 xTrivial [(1, "Smith v Jones")] none none 1 "Smith v Jones"
      (by decide) (by rfl) (by rfl) (by rfl)

/-- C3 counterexample: the line `(5, "")` lies in the selected range
`[5, 5]`, is classified as noise (blank), and appears in neither the
output rows nor the skip report: it is silently dropped, contradicting the
claim that every in-range line reaches one of the two. -/
theorem extractLines_drops_inrange_noise :
    extractLinesMain xTrivial [(5, "")] (some 5) (some 5) = ([], []) := by rfl

/-- The range filter of `extract_cases.main` completes iff every record
has an int-convertible `line` field. -/
theorem extractCasesFilter_ok_iff (s e : Int) (data : List JRec) :
    (∃ out, extractCasesFilter s e data = .ok out) ↔
      ∀ r ∈ data, (pyInt ((jget r "line").getD (.i (-1)))).isSome = true := by
  induction data with
  | nil => simp [extractCasesFilter]
  | cons r rs ih =>
    simp only [List.mem_cons]
    cases hp : pyInt ((jget r "line").getD (.i (-1))) with
    | none =>
      constructor
      · rintro ⟨out, hout⟩
        simp only [extractCasesFilter, hp] at hout
        exact Except.noConfusion hout
      · intro hall
        have := hall r (Or.inl rfl)
        rw [hp] at this
        exact absurd this (by simp)
    | some ln =>
      constructor
      · rintro ⟨out, hout⟩
        simp only [extractCasesFilter, hp] at hout
        intro x hx
        rcases hx with hx | hx
        · subst hx; rw [hp]; rfl
        · rcases hrest : extractCasesFilter s e rs with f | rest
          · rw [hrest] at hout; exact absurd hout (by simp [Except.bind])
          · exact (ih.mp ⟨rest, hrest⟩) x hx
      · intro hall
        obtain ⟨rest, hrest⟩ := ih.mpr (fun x hx => hall x (Or.inr hx))
        refine ⟨if s ≤ ln ∧ ln ≤ e then r :: rest else rest, ?_⟩
        simp only [extractCasesFilter, hp, hrest, Except.bind]
        rfl

/-- C4 (amended): the fatal-termination conditions of the cited scripts:
`extract_cases.main` exits 2 on a missing lines file, raises on malformed
JSON, and otherwise completes iff every record has an int-convertible
`line` field; `load_json` (build_candidates) exits 1 on a missing file and
raises on malformed JSON, and `build_candidates.main` completes iff both
inputs load; `scrape_cases_to_breaches.main` exits 2 on a missing CSV and
otherwise completes iff every row has its `case_id` and `url` columns.
Missing or malformed input files are thus fatal, beyond missing CLI
arguments. -/
theorem fatal_only_on_missing_or_malformed_inputs :
    (∀ (g : String → Option GRes) (s e : Int),
      extractCasesMain g .missing s e = .error (.exit 2)) ∧
    (∀ (g : String → Option GRes) (s e : Int),
      extractCasesMain g .badJson s e = .error .exc) ∧
    (∀ (g : String → Option GRes) (s e : Int) (data : List JRec),
      (∃ out, extractCasesMain g (.arr data) s e = .ok out) ↔
        ∀ r ∈ data, (pyInt ((jget r "line").getD (.i (-1)))).isSome = true) ∧
    (loadJson .missing = .error (.exit 1)) ∧
    (loadJson .badJson = .error .exc) ∧
    (∀ f1 f2 : JFile, (∃ out, buildCandidatesMain f1 f2 = .ok out) ↔
      loadOk f1 = true ∧ loadOk f2 = true) ∧
    (∀ w : SWorld, (scrapeMain w none).1 = .error (.exit 2)) ∧
    (∀ (w : SWorld) (rows : List Row), (scrapeMain w (some rows)).1 = .ok () ↔
      ∀ r ∈ rows, (getOpt r "case_id").isSome = true ∧ (getOpt r "url").isSome = true) := by
  refine ⟨fun _ _ _ => rfl, fun _ _ _ => rfl, ?_, rfl, rfl, ?_, fun _ => rfl, ?_⟩
  · intro g s e data
    rw [← extractCasesFilter_ok_iff s e data]
    constructor
    · rintro ⟨out, hout⟩
      rcases hrest : extractCasesFilter s e data with f | rows
      · simp only [extractCasesMain, hrest, Except.bind] at hout
        exact Except.noConfusion hout
      · exact ⟨rows, rfl⟩
    · rintro ⟨rows, hrows⟩
      refine ⟨extractCasesEmit g [] rows, ?_⟩
      simp only [extractCasesMain, hrows, Except.bind]
      rfl
  · intro f1 f2
    cases f1 <;> cases f2 <;>
      simp [buildCandidatesMain, loadJson, loadOk, Except.bind, Bind.bind, pure, Except.pure]
  · intro w rows
    induction rows with
    | nil => simp [scrapeMain, scrapeLoop]
    | cons r rs ih =>
      simp only [scrapeMain] at ih ⊢
      simp only [List.mem_cons]
      cases hc : getOpt r "case_id" with
      | none =>
        simp only [scrapeLoop, hc]
        constructor
        · intro h; exact absurd h (by simp)
        · intro hall
          have := (hall r (Or.inl rfl)).1
          rw [hc] at this
          exact absurd this (by simp)
      | some cid =>
        cases hu : getOpt r "url" with
        | none =>
          simp only [scrapeLoop, hc, hu]
          constructor
          · intro h; exact absurd h (by simp)
          · intro hall
            have := (hall r (Or.inl rfl)).2
            rw [hu] at this
            exact absurd this (by simp)
        | some url0 =>
          rcases hf : politeFetch w (pyStrip url0) with ⟨html0, evs⟩
          rcases hl : scrapeLoop w rs with ⟨res, evs2⟩
          have hstep : (scrapeLoop w (r :: rs)).1 = res := by
            simp only [scrapeLoop, hc, hu, hf, hl]
          rw [hstep]
          rw [hl] at ih
          simp only at ih
          rw [ih]
          constructor
          · intro hall x hx
            rcases hx with hx | hx
            · subst hx; exact ⟨by rw [hc]; rfl, by rw [hu]; rfl⟩
            · exact hall x hx
          · intro hall x hx
            exact hall x (Or.inr hx)

/-- C4 witness: concrete instances — a missing lines file exits 2, and
well-formed inputs complete. -/
theorem fatal_only_on_missing_or_malformed_inputs_witness :
    extractCasesMain (fun _ => none) .missing 0 0 = .error (.exit 2) ∧
    (∃ out, buildCandidatesMain (.arr []) (.arr []) = .ok out) := by
  refine ⟨fatal_only_on_missing_or_malformed_inputs.1 (fun _ => none) 0 0, ?_⟩
  exact (fatal_only_on_missing_or_malformed_inputs.2.2.2.2.2.1 (.arr []) (.arr [])).mpr
    ⟨rfl, rfl⟩

/-- C4 counterexample: `build_candidates` invoked with all required CLI
arguments but a missing input file terminates fatally with exit status 1
(`sys.exit` inside `load_json`), contradicting the claim that only a
missing CLI argument is fatal. -/
theorem buildCandidates_missing_input_fatal :
    buildCandidatesMain .missing .missing = .error (.exit 1) := by rfl

/-- Integer range membership. -/
theorem mem_pyRange (s e i : Int) : i ∈ pyRange s e ↔ s ≤ i ∧ i < e := by
  unfold pyRange
  constructor
  · intro h
    obtain ⟨k, hk, hke⟩ := List.mem_map.mp h
    have hk2 := List.mem_range.mp hk
    simp only [Int.ofNat_eq_coe] at hke
    omega
  · rintro ⟨h1, h2⟩
    refine List.mem_map.mpr ⟨(i - s).toNat, List.mem_range.mpr (by omega), ?_⟩
    simp only [Int.ofNat_eq_coe]
    omega

/-- Python `pyIdx` only inspects the length of the list. -/
theorem pyIdx_congr {α β : Type} (xs : List α) (ys : List β) (h : xs.length = ys.length)
    (i : Int) : pyIdx xs i = pyIdx ys i := by
  simp [pyIdx, h]

/-- The `enrich_firstN` loop preserves the number of rows. -/
theorem enrichFirstNLoop_length (w : UWorld) :
    ∀ (is : List Int) (rows rows2 : List Row),
      enrichFirstNLoop w is rows = .ok rows2 → rows2.length = rows.length := by
  intro is
  induction is with
  | nil =>
    intro rows rows2 h
    simp only [enrichFirstNLoop] at h
    cases h
    rfl
  | cons i is ih =>
    intro rows rows2 h
    simp only [enrichFirstNLoop] at h
    cases hj : pyIdx rows i with
    | none => rw [hj] at h; exact Except.noConfusion h
    | some j =>
      rw [hj] at h
      simp only at h
      split at h
      · exact ih rows rows2 h
      · split at h
        · exact Except.noConfusion h
        · exact ih rows rows2 h
        · split at h
          · exact ih rows rows2 h
          · have := ih _ rows2 h
            rw [this, List.length_set]

/-- Rows whose index the `enrich_firstN` loop never touches are left
unchanged. -/
theorem enrichFirstNLoop_frame (w : UWorld) :
    ∀ (is : List Int) (rows rows2 : List Row) (m : Nat),
      enrichFirstNLoop w is rows = .ok rows2 →
      (∀ i ∈ is, ∀ j, pyIdx rows i = some j → j ≠ m) →
      rows2.get? m = rows.get? m := by
  intro is
  induction is with
  | nil =>
    intro rows rows2 m h _
    simp only [enrichFirstNLoop] at h
    cases h
    rfl
  | cons i is ih =>
    intro rows rows2 m h hout
    simp only [enrichFirstNLoop] at h
    cases hj : pyIdx rows i with
    | none => rw [hj] at h; exact Except.noConfusion h
    | some j =>
      have hjm : j ≠ m := hout i (List.mem_cons_self ..) j hj
      rw [hj] at h
      simp only at h
      have hrest : ∀ i2 ∈ is, ∀ j2, pyIdx rows i2 = some j2 → j2 ≠ m :=
        fun i2 hi2 j2 hj2 => hout i2 (List.mem_cons_of_mem _ hi2) j2 hj2
      split at h
      · exact ih rows rows2 m h hrest
      · split at h
        · exact Except.noConfusion h
        · exact ih rows rows2 m h hrest
        · split at h
          · exact ih rows rows2 m h hrest
          · refine Eq.trans (ih _ rows2 m h ?_) (List.get?_set_ne _ rows hjm)
            intro i2 hi2 j2 hj2
            refine hrest i2 hi2 j2 ?_
            rwa [pyIdx_congr _ rows (List.length_set ..) i2] at hj2

/-- C6 (amended): for a non-negative `--start`, `enrich_firstN` leaves
every row outside the slice `[s, min(n, s+k))` unchanged in the written
output except for the addition of the url column when absent.  (For a
negative `--start`, Python list indexing reaches trailing rows outside
that slice — see the counterexample.) -/
theorem enrichFirstN_outside_slice_unchanged (w : UWorld) (rows : List Row)
    (s k : Int) (hs : 0 ≤ s) (out : List Row)
    (hok : enrichFirstNMain w rows s k = .ok out) (m : Nat)
    (hm : ¬ (s ≤ (m : Int) ∧ (m : Int) < min (rows.length : Int) (s + k))) :
    out.get? m = (rows.get? m).map ensureUrl := by
  have hok2 : (match enrichFirstNLoop w (pyRange s (min (rows.length : Int) (s + k))) rows with
      | Except.error f => Except.error f
      | Except.ok rows2 => Except.ok (rows2.map ensureUrl)) = Except.ok out := hok
  clear hok
  rcases hloop : enrichFirstNLoop w (pyRange s (min (rows.length : Int) (s + k))) rows
    with f | rows2
  · rw [hloop] at hok2; exact Except.noConfusion hok2
  · rw [hloop] at hok2
    simp only at hok2
    cases hok2
    rw [List.get?_map]
    have hframe : rows2.get? m = rows.get? m := by
      refine enrichFirstNLoop_frame w _ rows rows2 m hloop ?_
      intro i hi j hj
      have hrange := (mem_pyRange _ _ i).mp hi
      have hji : j = i.toNat := by
        unfold pyIdx at hj
        rw [if_pos (by omega : (0:Int) ≤ i)] at hj
        split at hj
        · cases hj; rfl
        · exact Option.noConfusion hj
      intro hjm
      subst hji
      subst hjm
      exact hm ⟨by omega, by omega⟩
    rw [hframe]

/-- C6 witness: a run with an empty slice (`--start 0 --limit 0`) writes
row 0 back unchanged except for the added empty url column. -/
theorem enrichFirstN_outside_slice_unchanged_witness :
    ([[("Title", "T"), ("url", "")]] : List Row).get? 0 =
      (([[("Title", "T")]] : List Row).get? 0).map ensureUrl :=
  enrichFirstN_outside_slice_unchanged uNoneWorld [[("Title", "T")]] 0 0 (by decide)
    [[("Title", "T"), ("url", "")]] (by rfl) 0 (by decide)

/-- C6 counterexample: with `--start -1 --limit 1` on a one-row CSV the
claimed slice `[s, min(n, s+k)) = [-1, 0)` contains no 0-based index, yet
Python list indexing makes the loop enrich row 0: the written row carries
a resolved URL instead of being unchanged with an empty url column. -/
theorem enrichFirstN_negative_start_enriches_outside_slice :
    enrichFirstNMain uJerseyWorld [[("Title", "A v B"), ("Citation", "")]] (-1) 1 =
      .ok [[("Title", "A v B"), ("Citation", ""),
            ("url", "https://www.jerseylaw.je/judgments/j1")]] ∧
    ¬ ((-1 : Int) ≤ (0 : Int) ∧ (0 : Int) < min ((1 : Nat) : Int) ((-1) + 1)) :=
  ⟨by rfl, by decide⟩

/-- Python `reqThenSlp` is closed under concatenation. -/
theorem rts_append : ∀ (a b : List Ev), reqThenSlp a = true → reqThenSlp b = true →
    reqThenSlp (a ++ b) = true
  | [], _, _, hb => hb
  | Ev.slp :: t, b, ha, hb => by
    simp only [reqThenSlp] at ha
    simpa only [List.cons_append, reqThenSlp] using rts_append t b ha hb
  | Ev.req _ :: Ev.slp :: t, b, ha, hb => by
    simp only [reqThenSlp] at ha
    simpa only [List.cons_append, reqThenSlp] using rts_append t b ha hb
  | Ev.req _ :: Ev.req _ :: _, _, ha, _ => by simp [reqThenSlp] at ha
  | [Ev.req _], _, ha, _ => by simp [reqThenSlp] at ha

/-- Every `polite_fetch` retry attempt is a request immediately followed by
a sleep. -/
theorem politeFetchGo_rts (w : SWorld) (url : String) :
    ∀ fuel i, reqThenSlp (politeFetchGo w url fuel i).2 = true := by
  intro fuel
  induction fuel with
  | zero => intro i; rfl
  | succ n ih =>
    intro i
    cases ha : w.attempt url i with
    | some h => simp [politeFetchGo, ha, reqThenSlp]
    | none =>
      rcases hgo : politeFetchGo w url n (i + 1) with ⟨r, evs⟩
      have h2 := ih (i + 1)
      rw [hgo] at h2
      simp only at h2
      simp [politeFetchGo, ha, hgo, reqThenSlp, h2]

/-- Python `polite_fetch` sleeps after every request it issues. -/
theorem politeFetch_rts (w : SWorld) (url : String) :
    reqThenSlp (politeFetch w url).2 = true := by
  unfold politeFetch
  by_cases hd : w.domOk url
  · simp only [hd]
    cases hc : w.cache url with
    | some h => rfl
    | none => simpa using politeFetchGo_rts w url 3 0
  · simp [hd, reqThenSlp]

/-- The scrape row loop sleeps after every request it issues. -/
theorem scrapeLoop_rts (w : SWorld) :
    ∀ rows : List Row, reqThenSlp (scrapeLoop w rows).2 = true := by
  intro rows
  induction rows with
  | nil => rfl
  | cons r rs ih =>
    cases hc : getOpt r "case_id" with
    | none => simp [scrapeLoop, hc, reqThenSlp]
    | some cid =>
      cases hu : getOpt r "url" with
      | none => simp [scrapeLoop, hc, hu, reqThenSlp]
      | some url0 =>
        rcases hf : politeFetch w (pyStrip url0) with ⟨html0, evs⟩
        rcases hl : scrapeLoop w rs with ⟨res, evs2⟩
        have h1 := politeFetch_rts w (pyStrip url0)
        rw [hf] at h1
        have h2 := ih
        rw [hl] at h2
        simp only at h1 h2
        have : (scrapeLoop w (r :: rs)).2 = evs ++ evs2 := by
          simp only [scrapeLoop, hc, hu, hf, hl]
        rw [this]
        exact rts_append evs evs2 h1 h2

/-- The DDG hit scan issues only request events, never sleeps. -/
theorem scanHits_count_slp (w : EWorld) (t c : String) :
    ∀ (us seen : List String),
      ((scanHits w t c us seen).2.2).count Ev.slp = 0 := by
  intro us
  induction us with
  | nil => intro seen; rfl
  | cons u us ih =>
    intro seen
    by_cases hseen : u ∈ seen
    · simp only [scanHits, if_pos hseen]
      exact ih seen
    · cases hf : w.fetchPage u with
      | none =>
        rcases hsc : scanHits w t c us (u :: seen) with ⟨r0, s0, evs⟩
        have h2 := ih (u :: seen)
        rw [hsc] at h2
        simp only at h2
        simp [scanHits, if_neg hseen, hf, hsc, List.count_cons, h2]
      | some htmlTxt =>
        by_cases hv : w.verify t c htmlTxt
        · simp [scanHits, if_neg hseen, hf, hv, List.count_cons]
        · rcases hsc : scanHits w t c us (u :: seen) with ⟨r0, s0, evs⟩
          have h2 := ih (u :: seen)
          rw [hsc] at h2
          simp only at h2
          simp [scanHits, if_neg hseen, hf, hv, hsc, List.count_cons, h2]

/-- The per-query resolution loop issues only request events, never
sleeps. -/
theorem resolveLoop_count_slp (w : EWorld) (t c : String) :
    ∀ (qs seen : List String),
      ((resolveLoop w t c seen qs).2).count Ev.slp = 0 := by
  intro qs
  induction qs with
  | nil => intro seen; rfl
  | cons q qs ih =>
    intro seen
    cases hd : w.ddg q with
    | error e => simp [resolveLoop, hd, List.count_cons]
    | ok hits0 =>
      rcases hsc : scanHits w t c
          ((hits0.filter (fun u => allowedSites.any (fun dom =>
            pyStartsWith u ("https://" ++ dom) || pyStartsWith u ("http://" ++ dom)))).take 5)
          seen with ⟨r0, s0, evs⟩
      have h1 := scanHits_count_slp w t c
        ((hits0.filter (fun u => allowedSites.any (fun dom =>
          pyStartsWith u ("https://" ++ dom) || pyStartsWith u ("http://" ++ dom)))).take 5)
        seen
      rw [hsc] at h1
      simp only at h1
      cases r0 with
      | some v =>
        simp [resolveLoop, hd, hsc, List.count_cons, h1]
      | none =>
        rcases hrl : resolveLoop w t c s0 qs with ⟨r1, evs2⟩
        have h2 := ih s0
        rw [hrl] at h2
        simp only at h2
        simp [resolveLoop, hd, hsc, hrl, List.count_cons, List.count_append, h1, h2]

/-- Python `resolve_url_for_row` never sleeps. -/
theorem resolveRow_count_slp (w : EWorld) (r : Row) :
    ((resolveRow w r).2).count Ev.slp = 0 := by
  unfold resolveRow
  by_cases ht : rowTitle r = ""
  · simp [ht]
  · simp only [if_neg ht]
    exact resolveLoop_count_slp w (rowTitle r) (rowCite r) _ _

/-- The `enrich_urls` main loop sleeps exactly once per attempted row. -/
theorem euLoop_count_slp (w : EWorld) :
    ∀ (is : List Nat) (rows : List Row), is.Nodup →
      ((euLoop w is rows).2).count Ev.slp = is.countP (fun i => attemptedIdx rows i) := by
  intro is
  induction is with
  | nil => intro rows _; rfl
  | cons i is ih =>
    intro rows hnd
    have hnotmem : i ∉ is := (List.nodup_cons.mp hnd).1
    have hnd2 : is.Nodup := (List.nodup_cons.mp hnd).2
    by_cases h1 : rowTitle (rows.getD i []) = ""
    · have heq : euLoop w (i :: is) rows = euLoop w is rows := by
        simp only [euLoop]; rw [if_pos h1]
      have hatt : attemptedIdx rows i = false := by
        simp only [attemptedIdx]; rw [if_pos h1]
      rw [heq, ih rows hnd2, List.countP_cons, hatt]
      simp
    · by_cases h2 : truthyOpt (getOpt (rows.getD i []) "url")
      · have heq : euLoop w (i :: is) rows = euLoop w is rows := by
          simp only [euLoop]; rw [if_neg h1, if_pos h2]
        have hatt : attemptedIdx rows i = false := by
          simp only [attemptedIdx]; rw [if_neg h1, if_pos h2]
        rw [heq, ih rows hnd2, List.countP_cons, hatt]
        simp
      · rcases hres : resolveRow w (rows.getD i []) with ⟨v, tr⟩
        have htr : tr.count Ev.slp = 0 := by
          have := resolveRow_count_slp w (rows.getD i [])
          rw [hres] at this
          exact this
        set rows2 := if truthyOpt v.1 then
            rows.set i (setKey (rows.getD i []) "url" (v.1.getD "")) else rows with hrows2
        rcases hgo : euLoop w is rows2 with ⟨rows3, evs⟩
        have heq : euLoop w (i :: is) rows = (rows3, tr ++ Ev.slp :: evs) := by
          simp only [euLoop]
          rw [if_neg h1, if_neg h2, hres]
          simp only [← hrows2, hgo]
        have hevs : evs.count Ev.slp = is.countP (fun j => attemptedIdx rows2 j) := by
          have := ih rows2 hnd2
          rw [hgo] at this
          exact this
        have hsame : is.countP (fun j => attemptedIdx rows2 j) =
            is.countP (fun j => attemptedIdx rows j) := by
          apply List.countP_congr
          intro j hj
          have hji : i ≠ j := fun hh => hnotmem (hh ▸ hj)
          have hget : rows2.getD j [] = rows.getD j [] := by
            rw [hrows2]
            by_cases h3 : truthyOpt v.1
            · rw [if_pos h3, List.getD_eq_getD_get?, List.getD_eq_getD_get?,
                List.get?_set_ne _ rows hji]
              exact (List.getD_eq_getD_get? ..).symm
            · rw [if_neg h3]
          simp only [attemptedIdx, hget]
        have hatt : attemptedIdx rows i = true := by
          simp only [attemptedIdx]; rw [if_neg h1, if_neg h2]
        rw [heq, List.count_append, List.count_cons, htr, hevs, hsame,
          List.countP_cons, hatt]
        simp

/-- Empty integer ranges. -/
theorem pyRange_eq_nil (s e : Int) (h : e ≤ s) : pyRange s e = [] := by
  unfold pyRange
  rw [show (e - s).toNat = 0 from by omega]
  rfl

/-- The slice indices are pairwise distinct. -/
theorem pyRange_toNat_nodup (s e : Int) (hs : 0 ≤ s) :
    ((pyRange s e).map Int.toNat).Nodup := by
  have hmap : (pyRange s e).map Int.toNat =
      (List.range (e - s).toNat).map (fun k => s.toNat + k) := by
    unfold pyRange
    rw [List.map_map]
    apply List.map_congr_left
    intro a _
    simp only [Function.comp_apply, Int.ofNat_eq_coe]
    omega
  rw [hmap]
  exact (List.nodup_range _).map (fun a b h => by omega)

/-- C7 (amended): `scrape_cases_to_breaches` sleeps between any two
consecutive requests (every request event is immediately followed by a
sleep event); `enrich_urls` sleeps exactly once per attempted row — so its
rate limiting is per-row, and the several requests a single row resolution
issues are not separated by sleeps (see the counterexample). -/
theorem sleep_rate_limiting_structure :
    (∀ (w : SWorld) (csvFile : Option (List Row)),
      reqThenSlp (scrapeMain w csvFile).2 = true) ∧
    (∀ (w : EWorld) (rows : List Row) (startA endA : Int),
      ((enrichUrlsMain w rows startA endA).2).count Ev.slp =
        (euSliceIdxs rows startA endA).countP
          (fun i => attemptedIdx (rows.map ensureUrl) i)) := by
  constructor
  · intro w csvFile
    cases csvFile with
    | none => rfl
    | some rows => exact scrapeLoop_rts w rows
  · intro w rows startA endA
    by_cases hse : (max 0 startA) ≥
        (if endA < 0 then (rows.length : Int) else min (rows.length : Int) endA)
    · have hmain : (enrichUrlsMain w rows startA endA).2 = [] := by
        unfold enrichUrlsMain
        rw [if_pos hse]
      have hidx : euSliceIdxs rows startA endA = [] := by
        show (pyRange (max 0 startA)
          (if endA < 0 then (rows.length : Int) else min (rows.length : Int) endA)).map
            Int.toNat = []
        rw [pyRange_eq_nil _ _ hse]
        rfl
      rw [hmain, hidx]
      rfl
    · have hnodup : ((pyRange (max 0 startA)
          (if endA < 0 then (rows.length : Int) else min (rows.length : Int) endA)).map
            Int.toNat).Nodup :=
        pyRange_toNat_nodup _ _ (le_max_left 0 startA)
      have hmain : (enrichUrlsMain w rows startA endA).2 =
          (euLoop w ((pyRange (max 0 startA)
            (if endA < 0 then (rows.length : Int) else min (rows.length : Int) endA)).map
              Int.toNat) (rows.map ensureUrl)).2 := by
        unfold enrichUrlsMain
        rw [if_neg hse]
      rw [hmain, euLoop_count_slp w _ _ hnodup]
      rfl

/-- C7 counterexample: in a run of `enrich_urls` over one row, consecutive
DDG requests are issued with no sleep between them (the per-row sleep only
comes after the whole resolution), contradicting the claim that the script
sleeps between any two consecutive external requests. -/
theorem enrichUrls_adjacent_requests :
    hasAdjReq (enrichUrlsMain eNoHits [[("Title", "A v B"), ("Citation", "x")]] 0 (-1)).2
      = true := by rfl

/-- Rows carrying a truthy url are passed through the `enrich_urls` loop
unchanged. -/
theorem euLoop_keeps (w : EWorld) :
    ∀ (is : List Nat) (rows : List Row) (i : Nat) (r : Row),
      rows.get? i = some r → truthyOpt (getOpt r "url") = true →
      (euLoop w is rows).1.get? i = some r := by
  intro is
  induction is with
  | nil => intro rows i r hr _; exact hr
  | cons j js ih =>
    intro rows i r hr htr
    by_cases h1 : rowTitle (rows.getD j []) = ""
    · have heq : euLoop w (j :: js) rows = euLoop w js rows := by
        simp only [euLoop]; rw [if_pos h1]
      rw [heq]
      exact ih rows i r hr htr
    · by_cases h2 : truthyOpt (getOpt (rows.getD j []) "url")
      · have heq : euLoop w (j :: js) rows = euLoop w js rows := by
          simp only [euLoop]; rw [if_neg h1, if_pos h2]
        rw [heq]
        exact ih rows i r hr htr
      · by_cases hji : j = i
        · subst hji
          have hgd : rows.getD j [] = r := by
            rw [List.getD_eq_getD_get?, hr]
            rfl
          rw [hgd] at h2
          exact absurd htr h2
        · rcases hres : resolveRow w (rows.getD j []) with ⟨v, tr⟩
          set rows2 := if truthyOpt v.1 then
              rows.set j (setKey (rows.getD j []) "url" (v.1.getD "")) else rows with hrows2
          rcases hgo : euLoop w js rows2 with ⟨rows3, evs⟩
          have heq : euLoop w (j :: js) rows = (rows3, tr ++ Ev.slp :: evs) := by
            simp only [euLoop]
            rw [if_neg h1, if_neg h2, hres]
            simp only [← hrows2, hgo]
          rw [heq]
          simp only
          have hr2 : rows2.get? i = some r := by
            rw [hrows2]
            by_cases h3 : truthyOpt v.1
            · rw [if_pos h3, List.get?_set_ne _ rows hji]
              exact hr
            · rw [if_neg h3]
              exact hr
          have hres2 := ih rows2 i r hr2 htr
          rw [hgo] at hres2
          exact hres2

/-- C8: an `enrich_urls` input row that already carries a non-empty url is
written back completely unchanged: the existing URL is never overwritten
and no other field of the row is modified. -/
theorem enrichUrls_keeps_existing_url (w : EWorld) (rows : List Row) (startA endA : Int)
    (out : List Row) (i : Nat) (r : Row) (u : String)
    (hout : (enrichUrlsMain w rows startA endA).1 = some out)
    (hr : rows.get? i = some r) (hu : getOpt r "url" = some u) (hne : u ≠ "") :
    out.get? i = some r := by
  by_cases hse : (max 0 startA) ≥
      (if endA < 0 then (rows.length : Int) else min (rows.length : Int) endA)
  · have hnone : (enrichUrlsMain w rows startA endA).1 = none := by
      unfold enrichUrlsMain
      rw [if_pos hse]
    rw [hnone] at hout
    exact Option.noConfusion hout
  · rcases hgo : euLoop w ((pyRange (max 0 startA)
        (if endA < 0 then (rows.length : Int) else min (rows.length : Int) endA)).map
          Int.toNat) (rows.map ensureUrl) with ⟨a, b⟩
    have hmain : (enrichUrlsMain w rows startA endA).1 = some a := by
      unfold enrichUrlsMain
      rw [if_neg hse]
      simp only [hgo]
    rw [hmain] at hout
    injection hout with hout2
    subst hout2
    have hfind : (r.find? (fun p => p.1 = "url")).isSome := by
      unfold getOpt at hu
      cases hf : r.find? (fun p => p.1 = "url") with
      | none => rw [hf] at hu; exact Option.noConfusion hu
      | some p => rfl
    have hens : ensureUrl r = r := by
      unfold ensureUrl
      rw [if_pos hfind]
    have hr1 : (rows.map ensureUrl).get? i = some r := by
      rw [List.get?_map, hr]
      simp [hens]
    have htr : truthyOpt (getOpt r "url") = true := by
      rw [hu]
      simp [truthyOpt, hne]
    have hkeep := euLoop_keeps w ((pyRange (max 0 startA)
      (if endA < 0 then (rows.length : Int) else min (rows.length : Int) endA)).map
        Int.toNat) (rows.map ensureUrl) i r hr1 htr
    rw [hgo] at hkeep
    exact hkeep

/-- C8 witness: a row with an existing URL is returned untouched by a
concrete run. -/
theorem enrichUrls_keeps_existing_url_witness :
    ([[("Title", "T"), ("url", "http://u")]] : List Row).get? 0 =
      some [("Title", "T"), ("url", "http://u")] :=
  enrichUrls_keeps_existing_url eNoHits [[("Title", "T"), ("url", "http://u")]] 0 (-1)
    [[("Title", "T"), ("url", "http://u")]] 0 [("Title", "T"), ("url", "http://u")]
    "http://u" (by rfl) (by rfl) (by rfl) (by decide)

/-- The trimmed title never exceeds 300 characters. -/
theorem trimTitle_length (t : String) : (trimTitle t).length ≤ 300 := by
  unfold trimTitle
  by_cases h : t.length > 300
  · rw [if_pos h]
    show ((String.mk (t.data.take 297) ++ "...").data).length ≤ 300
    rw [show (String.mk (t.data.take 297) ++ "...").data =
      t.data.take 297 ++ ("..." : String).data from rfl]
    rw [List.length_append, List.length_take]
    have : (("..." : String).data).length = 3 := rfl
    omega
  · rw [if_neg h]
    omega

/-- The ids written by the emit loop are the first-occurrence dedup of the
candidate ids. -/
theorem extractCasesEmit_ids (g : String → Option GRes) :
    ∀ (rows : List JRec) (seen : List String),
      (extractCasesEmit g seen rows).map CRow.caseId = firstDedupGo seen (candIds g rows) := by
  intro rows
  induction rows with
  | nil => intro seen; rfl
  | cons r rs ih =>
    intro seen
    cases hg : g (pyStrOf ((jget r "text").getD (.s ""))) with
    | none =>
      simp only [extractCasesEmit, candIds, List.filterMap_cons, hg]
      exact ih seen
    | some gr =>
      by_cases hid : gr.id = ""
      · have hguard : ¬ (gr.id ≠ "" ∧ gr.id ∉ seen) := fun hh => hh.1 hid
        simp only [extractCasesEmit, candIds, List.filterMap_cons, hg, if_pos hid,
          if_neg hguard]
        exact ih seen
      · by_cases hseen : gr.id ∈ seen
        · have hguard : ¬ (gr.id ≠ "" ∧ gr.id ∉ seen) := fun hh => hh.2 hseen
          simp only [extractCasesEmit, candIds, List.filterMap_cons, hg, if_neg hid,
            if_neg hguard, firstDedupGo, if_pos hseen]
          exact ih seen
        · have hguard : gr.id ≠ "" ∧ gr.id ∉ seen := ⟨hid, hseen⟩
          simp only [extractCasesEmit, candIds, List.filterMap_cons, hg, if_neg hid,
            if_pos hguard, firstDedupGo, if_neg hseen, List.map_cons]
          rw [ih (gr.id :: seen)]
          rfl

/-- First-occurrence dedup yields pairwise-distinct entries outside the
seen set. -/
theorem firstDedupGo_nodup :
    ∀ (l seen : List String),
      (firstDedupGo seen l).Nodup ∧ ∀ x ∈ firstDedupGo seen l, x ∉ seen := by
  intro l
  induction l with
  | nil => intro seen; exact ⟨List.nodup_nil, by simp [firstDedupGo]⟩
  | cons x xs ih =>
    intro seen
    by_cases hx : x ∈ seen
    · simp only [firstDedupGo, if_pos hx]
      exact ih seen
    · simp only [firstDedupGo, if_neg hx]
      obtain ⟨hnd, hnotin⟩ := ih (x :: seen)
      constructor
      · rw [List.nodup_cons]
        exact ⟨fun hmem => (hnotin x hmem) (List.mem_cons_self ..), hnd⟩
      · intro y hy
        rcases List.mem_cons.mp hy with rfl | hy2
        · exact hx
        · exact fun hys => (hnotin y hy2) (List.mem_cons_of_mem _ hys)

/-- Every title the emit loop writes is a trimmed title. -/
theorem extractCasesEmit_title (g : String → Option GRes) :
    ∀ (rows : List JRec) (seen : List String) (r : CRow),
      r ∈ extractCasesEmit g seen rows → ∃ t, r.title = trimTitle t := by
  intro rows
  induction rows with
  | nil => intro seen r hr; exact absurd hr (List.not_mem_nil _)
  | cons rec rs ih =>
    intro seen r hr
    cases hg : g (pyStrOf ((jget rec "text").getD (.s ""))) with
    | none =>
      simp only [extractCasesEmit, hg] at hr
      exact ih seen r hr
    | some gr =>
      simp only [extractCasesEmit, hg] at hr
      by_cases hguard : gr.id ≠ "" ∧ gr.id ∉ seen
      · rw [if_pos hguard] at hr
        rcases List.mem_cons.mp hr with rfl | hr2
        · exact ⟨pyStrip (pyStrOf ((jget rec "text").getD (.s ""))), rfl⟩
        · exact ih _ r hr2
      · rw [if_neg hguard] at hr
        exact ih seen r hr

/-- C9: in the CSV written by `extract_cases.py`, case ids are pairwise
distinct (only the first occurrence of a duplicated id is written — the
emitted id sequence is exactly the first-occurrence dedup of the candidate
ids), and every emitted title has length at most 300 characters. -/
theorem extractCases_ids_nodup_titles_bounded (g : String → Option GRes) (f : LFile)
    (s e : Int) (out : List CRow) (hok : extractCasesMain g f s e = .ok out) :
    (out.map CRow.caseId).Nodup ∧ (∀ r ∈ out, r.title.length ≤ 300) ∧
    (∀ (data rows : List JRec), f = .arr data →
      extractCasesFilter s e data = .ok rows →
      out.map CRow.caseId = firstDedup (candIds g rows)) := by
  cases f with
  | missing => exact Except.noConfusion hok
  | badJson => exact Except.noConfusion hok
  | arr data =>
    rcases hfil : extractCasesFilter s e data with ff | rows
    · have hmain : extractCasesMain g (.arr data) s e = .error ff := by
        simp only [extractCasesMain, hfil, Except.bind]
        rfl
      rw [hmain] at hok
      exact Except.noConfusion hok
    · have hmain : extractCasesMain g (.arr data) s e = .ok (extractCasesEmit g [] rows) := by
        simp only [extractCasesMain, hfil, Except.bind]
        rfl
      rw [hmain] at hok
      injection hok with hout
      subst hout
      refine ⟨?_, ?_, ?_⟩
      · rw [extractCasesEmit_ids g rows []]
        exact (firstDedupGo_nodup (candIds g rows) []).1
      · intro r hr
        obtain ⟨t, ht⟩ := extractCasesEmit_title g rows [] r hr
        rw [ht]
        exact trimTitle_length t
      · intro data2 rows2 hfeq hfil2
        cases hfeq
        rw [hfil] at hfil2
        injection hfil2 with hre
        subst hre
        exact extractCasesEmit_ids g rows []

/-- C9 witness: two in-range lines guessing the same case id produce a
single row, with a distinct id and a bounded title. -/
theorem extractCases_ids_nodup_titles_bounded_witness :
    (([⟨"id1", "Jersey", "a", "", ""⟩] : List CRow).map CRow.caseId).Nodup ∧
    (∀ r ∈ ([⟨"id1", "Jersey", "a", "", ""⟩] : List CRow), r.title.length ≤ 300) := by
  have h := extractCases_ids_nodup_titles_bounded
    (fun t => if t = "" then none else some ⟨"id1", "Jersey", none⟩)
    (.arr [[("line", JVal.i 1), ("text", JVal.s "a")],
           [("line", JVal.i 2), ("text", JVal.s "a2")]])
    0 10 [⟨"id1", "Jersey", "a", "", ""⟩] (by rfl)
  exact ⟨h.1, h.2.1⟩

end CourtFirst
